import Mathlib

/-!
# SVF symbols and variables

A shallow embedding of `svf/include/MemoryModel/SVFSymbols.h`: the symbol
hierarchy (`SVFVar`, `ValSym`, `ObjSym`, `IntrinsicSym` and their subclasses),
the struct information `StInfo` and the object type descriptor `ObjTypeInfo`.

Pointers (`const Value*`, `const Type*`, `const Function*`) are addresses, with
`0` for `nullptr`.  Unsigned 32-bit quantities (`u32_t`, `SymID`) are natural
numbers; the header only stores and compares them, so no arithmetic can wrap.
-/

namespace SVF

/-- Address of a program entity (`const Value*`, `const Type*`, `const Function*`). -/
abbrev Ptr := Nat

/-- The null address. -/
def nullptr : Ptr := 0

/-- Symbol identifiers. -/
abbrev SymID := Nat

/-- Unsigned 32-bit values as the header uses them (stored and compared only). -/
abbrev u32_t := Nat

/-! ## `enum SYMTYPE` -/

/-- Symbol and variable types, in declaration order. -/
inductive SYMTYPE where
  | BlackHole
  | ConstantObj
  | BlkPtr
  | NullPtr
  | ValSymbol
  | ObjSymbol
  | RetSymbol
  | VarargSymbol
  deriving DecidableEq, Repr

/-- The integer value of each enumerator (an unscoped enum counts from 0). -/
def SYMTYPE.toNat : SYMTYPE → u32_t
  | .BlackHole => 0
  | .ConstantObj => 1
  | .BlkPtr => 2
  | .NullPtr => 3
  | .ValSymbol => 4
  | .ObjSymbol => 5
  | .RetSymbol => 6
  | .VarargSymbol => 7

/-- All eight enumerators. -/
def SYMTYPE.all : List SYMTYPE :=
  [.BlackHole, .ConstantObj, .BlkPtr, .NullPtr, .ValSymbol, .ObjSymbol, .RetSymbol, .VarargSymbol]

/-! ## `class SVFVar` -/

/-- The data members of `SVFVar`: the referenced value, the id and the kind. -/
structure SVFVar where
  refVal : Ptr
  symId : SymID
  kind : u32_t
  deriving DecidableEq, Repr

/-- The constructor `SVFVar(SymID id, u32_t k, const Value *val)`. -/
def SVFVar.ctor (id : SymID) (k : u32_t) (val : Ptr) : SVFVar :=
  { symId := id, refVal := val, kind := k }

/-- The accessor `getValue()`. -/
def SVFVar.getValue (var : SVFVar) : Ptr := var.refVal

/-- The accessor `getId()`. -/
def SVFVar.getId (var : SVFVar) : SymID := var.symId

/-- The accessor `getKind()`. -/
def SVFVar.getKind (var : SVFVar) : u32_t := var.kind

/-- The member `SVFVar::classof(const SVFVar*)`. -/
def SVFVar.classof (_var : SVFVar) : Bool := true

/-! ## `class ValSym` and its subclasses

`ValSym`, `BlkPtrSym` and `NullPtrSym` add no data member to `SVFVar`, so an
object of one of these classes is its `SVFVar` part. -/

/-- The constructor `ValSym(SymID id, const Value* val)`. -/
def ValSym.ctor (id : SymID) (val : Ptr) : SVFVar :=
  SVFVar.ctor id SYMTYPE.ValSymbol.toNat val

/-- The member `ValSym::classof(const SVFVar *var)`. -/
def ValSym.classof (var : SVFVar) : Bool :=
  var.getKind == SYMTYPE.ValSymbol.toNat ||
  var.getKind == SYMTYPE.BlkPtr.toNat ||
  var.getKind == SYMTYPE.NullPtr.toNat

/-- The constructor `BlkPtrSym(SymID id)`, which delegates to `ValSym(id, nullptr)`. -/
def BlkPtrSym.ctor (id : SymID) : SVFVar :=
  ValSym.ctor id nullptr

/-- The members `BlkPtrSym::classof(const ValSym *var)` and
`BlkPtrSym::classof(const SVFVar *var)`, which have the same body. -/
def BlkPtrSym.classof (var : SVFVar) : Bool :=
  var.getKind == SYMTYPE.BlkPtr.toNat

/-- The constructor `NullPtrSym(SymID id)`, which delegates to `ValSym(id, nullptr)`. -/
def NullPtrSym.ctor (id : SymID) : SVFVar :=
  ValSym.ctor id nullptr

/-- The members `NullPtrSym::classof(const ValSym *var)` and
`NullPtrSym::classof(const SVFVar *var)`, which have the same body. -/
def NullPtrSym.classof (var : SVFVar) : Bool :=
  var.getKind == SYMTYPE.NullPtr.toNat

/-! ## `class IntrinsicSym` and its subclasses -/

/-- The constructor `IntrinsicSym(SymID id, u32_t type, const Value* val)`. -/
def IntrinsicSym.ctor (id : SymID) (type : u32_t) (val : Ptr) : SVFVar :=
  SVFVar.ctor id type val

/-- The member `IntrinsicSym::classof(const SVFVar *var)`. -/
def IntrinsicSym.classof (var : SVFVar) : Bool :=
  var.getKind == SYMTYPE.RetSymbol.toNat ||
  var.getKind == SYMTYPE.VarargSymbol.toNat

/-- The constructor `RetSym(SymID id, const Function* fun)`. -/
def RetSym.ctor (id : SymID) (func : Ptr) : SVFVar :=
  IntrinsicSym.ctor id SYMTYPE.RetSymbol.toNat func

/-- The members `RetSym::classof(const IntrinsicSym *var)` and
`RetSym::classof(const SVFVar *var)`, which have the same body. -/
def RetSym.classof (var : SVFVar) : Bool :=
  var.getKind == SYMTYPE.RetSymbol.toNat

/-- The constructor `VarargSym(SymID id, const Function* fun)`. -/
def VarargSym.ctor (id : SymID) (func : Ptr) : SVFVar :=
  IntrinsicSym.ctor id SYMTYPE.VarargSymbol.toNat func

/-- The members `VarargSym::classof(const IntrinsicSym *var)` and
`VarargSym::classof(const SVFVar *var)`, which have the same body. -/
def VarargSym.classof (var : SVFVar) : Bool :=
  var.getKind == SYMTYPE.VarargSymbol.toNat

/-! ## `class ObjTypeInfo` -/

/-- The enumeration `ObjTypeInfo::MEMTYPE`. -/
inductive MEMTYPE where
  | FUNCTION_OBJ
  | GLOBVAR_OBJ
  | STATIC_OBJ
  | STACK_OBJ
  | HEAP_OBJ
  | VAR_STRUCT_OBJ
  | VAR_ARRAY_OBJ
  | CONST_STRUCT_OBJ
  | CONST_ARRAY_OBJ
  | CONST_OBJ
  | HASPTR_OBJ
  deriving DecidableEq, Repr

/-- The integer value of each `MEMTYPE` enumerator. -/
def MEMTYPE.toNat : MEMTYPE → Nat
  | .FUNCTION_OBJ => 0x1
  | .GLOBVAR_OBJ => 0x2
  | .STATIC_OBJ => 0x4
  | .STACK_OBJ => 0x8
  | .HEAP_OBJ => 0x10
  | .VAR_STRUCT_OBJ => 0x20
  | .VAR_ARRAY_OBJ => 0x40
  | .CONST_STRUCT_OBJ => 0x80
  | .CONST_ARRAY_OBJ => 0x100
  | .CONST_OBJ => 0x200
  | .HASPTR_OBJ => 0x400

/-- The data members of `ObjTypeInfo`: the type, the flags word and the
maximum field offset.  The flags word only ever takes part in bitwise `|` and
`&` with a mask, which cannot leave the machine word. -/
structure ObjTypeInfo where
  type : Ptr
  flags : Nat
  maxOffsetLimit : u32_t
  deriving DecidableEq, Repr

/-- The constructor `ObjTypeInfo(const Value*, const Type* t, u32_t max)`. -/
def ObjTypeInfo.ctor (_val : Ptr) (t : Ptr) (max : u32_t) : ObjTypeInfo :=
  { type := t, flags := 0, maxOffsetLimit := max }

/-- The constructor `ObjTypeInfo(u32_t max, const Type* t)`. -/
def ObjTypeInfo.ctorMaxType (max : u32_t) (t : Ptr) : ObjTypeInfo :=
  { type := t, flags := 0, maxOffsetLimit := max }

/-- The accessor `getType()`. -/
def ObjTypeInfo.getType (d : ObjTypeInfo) : Ptr := d.type

/-- The accessor `getMaxFieldOffsetLimit()`. -/
def ObjTypeInfo.getMaxFieldOffsetLimit (d : ObjTypeInfo) : u32_t := d.maxOffsetLimit

/-- The member `setMaxFieldOffsetLimit(u32_t limit)`. -/
def ObjTypeInfo.setMaxFieldOffsetLimit (d : ObjTypeInfo) (limit : u32_t) : ObjTypeInfo :=
  { d with maxOffsetLimit := limit }

/-- The member `setFlag(MEMTYPE mask)`: `flags |= mask`. -/
def ObjTypeInfo.setFlag (d : ObjTypeInfo) (mask : Nat) : ObjTypeInfo :=
  { d with flags := d.flags ||| mask }

/-- The member `hasFlag(MEMTYPE mask)`: `(flags & mask) == mask`. -/
def ObjTypeInfo.hasFlag (d : ObjTypeInfo) (mask : Nat) : Bool :=
  (d.flags &&& mask) == mask

/-- The member `isFunction()`. -/
def ObjTypeInfo.isFunction (d : ObjTypeInfo) : Bool := d.hasFlag MEMTYPE.FUNCTION_OBJ.toNat

/-- The member `isGlobalObj()`. -/
def ObjTypeInfo.isGlobalObj (d : ObjTypeInfo) : Bool := d.hasFlag MEMTYPE.GLOBVAR_OBJ.toNat

/-- The member `isStaticObj()`. -/
def ObjTypeInfo.isStaticObj (d : ObjTypeInfo) : Bool := d.hasFlag MEMTYPE.STATIC_OBJ.toNat

/-- The member `isStack()`. -/
def ObjTypeInfo.isStack (d : ObjTypeInfo) : Bool := d.hasFlag MEMTYPE.STACK_OBJ.toNat

/-- The member `isHeap()`. -/
def ObjTypeInfo.isHeap (d : ObjTypeInfo) : Bool := d.hasFlag MEMTYPE.HEAP_OBJ.toNat

/-- The member `isVarStruct()`. -/
def ObjTypeInfo.isVarStruct (d : ObjTypeInfo) : Bool := d.hasFlag MEMTYPE.VAR_STRUCT_OBJ.toNat

/-- The member `isConstStruct()`. -/
def ObjTypeInfo.isConstStruct (d : ObjTypeInfo) : Bool := d.hasFlag MEMTYPE.CONST_STRUCT_OBJ.toNat

/-- The member `isStruct()`. -/
def ObjTypeInfo.isStruct (d : ObjTypeInfo) : Bool :=
  d.hasFlag MEMTYPE.VAR_STRUCT_OBJ.toNat || d.hasFlag MEMTYPE.CONST_STRUCT_OBJ.toNat

/-- The member `isVarArray()`. -/
def ObjTypeInfo.isVarArray (d : ObjTypeInfo) : Bool := d.hasFlag MEMTYPE.VAR_ARRAY_OBJ.toNat

/-- The member `isConstArray()`. -/
def ObjTypeInfo.isConstArray (d : ObjTypeInfo) : Bool := d.hasFlag MEMTYPE.CONST_ARRAY_OBJ.toNat

/-- The member `isArray()`. -/
def ObjTypeInfo.isArray (d : ObjTypeInfo) : Bool :=
  d.hasFlag MEMTYPE.VAR_ARRAY_OBJ.toNat || d.hasFlag MEMTYPE.CONST_ARRAY_OBJ.toNat

/-- The member `isConstant()`. -/
def ObjTypeInfo.isConstant (d : ObjTypeInfo) : Bool := d.hasFlag MEMTYPE.CONST_OBJ.toNat

/-- The member `hasPtrObj()`. -/
def ObjTypeInfo.hasPtrObj (d : ObjTypeInfo) : Bool := d.hasFlag MEMTYPE.HASPTR_OBJ.toNat

/-! ## `class ObjSym` -/

/-- An `ObjSym` object: its `SVFVar` part and the type information it owns. -/
structure ObjSym where
  toSVFVar : SVFVar
  typeInfo : ObjTypeInfo
  deriving DecidableEq, Repr

/-- The inherited accessor `getValue()`. -/
def ObjSym.getValue (o : ObjSym) : Ptr := o.toSVFVar.getValue

/-- The inherited accessor `getId()`. -/
def ObjSym.getId (o : ObjSym) : SymID := o.toSVFVar.getId

/-- The inherited accessor `getKind()`. -/
def ObjSym.getKind (o : ObjSym) : u32_t := o.toSVFVar.getKind

/-- The member `ObjSym::classof(const SVFVar *var)`. -/
def ObjSym.classof (var : SVFVar) : Bool :=
  var.getKind == SYMTYPE.ObjSymbol.toNat ||
  var.getKind == SYMTYPE.BlackHole.toNat ||
  var.getKind == SYMTYPE.ConstantObj.toNat

/-- The member `ObjSym::operator==(const ObjSym &mem)`. -/
def ObjSym.operatorEq (o mem : ObjSym) : Bool :=
  o.getValue == mem.getValue

/-- The members `BlackHoleSym::classof(const ObjSym *var)` and
`BlackHoleSym::classof(const SVFVar *var)`, which have the same body. -/
def BlackHoleSym.classof (var : SVFVar) : Bool :=
  var.getKind == SYMTYPE.BlackHole.toNat

/-- The members `ConstantObjSym::classof(const ObjSym *var)` and
`ConstantObjSym::classof(const SVFVar *var)`, which have the same body. -/
def ConstantObjSym.classof (var : SVFVar) : Bool :=
  var.getKind == SYMTYPE.ConstantObj.toNat

/-! ## `class StInfo` -/

/-- Modelled from the spec: `FieldInfo` is declared in `MemoryModel/LocationSet.h`,
which is not among these sources; the spec describes it as a record of the
flattened index, the byte offset and the leaf type. -/
structure FieldInfo where
  flattenedIndex : u32_t
  byteOffset : u32_t
  leafType : Ptr
  deriving DecidableEq, Repr

/-- The container `Map<u32_t, const llvm::Type*>` (a `std::unordered_map`): its
entries, one per key.  The order of the entries carries no meaning. -/
structure Map where
  entries : List (u32_t × Ptr)
  deriving DecidableEq, Repr

/-- The empty map. -/
def Map.empty : Map := ⟨[]⟩

/-- The keys of a map. -/
def Map.keys (m : Map) : List u32_t := m.entries.map Prod.fst

/-- The lookup `m.find(k)`: the mapped value, if the key is present. -/
def Map.find (m : Map) (k : u32_t) : Option Ptr :=
  (m.entries.find? (fun e => e.1 == k)).map Prod.snd

/-- The statement `m[k] = v`: the entry of `k` is overwritten, or a new entry
is inserted when `k` has none. -/
def Map.assign (m : Map) (k : u32_t) (v : Ptr) : Map :=
  if k ∈ m.keys then
    ⟨m.entries.map (fun e => if e.1 == k then (e.1, v) else e)⟩
  else
    ⟨m.entries ++ [(k, v)]⟩

/-- The expression `m[k]` read as a value: the mapped value and the map
afterwards; a key that has no entry gets one, holding a null pointer. -/
def Map.subscript (m : Map) (k : u32_t) : Ptr × Map :=
  match m.find k with
  | some v => (v, m)
  | none => (nullptr, ⟨m.entries ++ [(k, nullptr)]⟩)

/-- The non-static data members of `StInfo`. -/
structure StInfo where
  fldIdxVec : List u32_t
  foffset : List u32_t
  fldIdx2TypeMap : Map
  offset2TypeMap : Map
  finfo : List FieldInfo
  deriving DecidableEq, Repr

/-- The constructor `StInfo()`: every member is default-constructed. -/
def StInfo.ctor : StInfo :=
  { fldIdxVec := [], foffset := [], fldIdx2TypeMap := Map.empty,
    offset2TypeMap := Map.empty, finfo := [] }

/-- The static data member `StInfo::maxFieldLimit`, the process-wide state of
the header. -/
structure Globals where
  maxFieldLimit : u32_t
  deriving DecidableEq, Repr

/-- The static member `StInfo::setMaxFieldLimit(u32_t limit)`. -/
def StInfo.setMaxFieldLimit (_g : Globals) (limit : u32_t) : Globals :=
  { maxFieldLimit := limit }

/-- The static member `StInfo::getMaxFieldLimit()`. -/
def StInfo.getMaxFieldLimit (g : Globals) : u32_t := g.maxFieldLimit

/-- The member `getFieldTypeWithFldIdx(u32_t fldIdx)`: `fldIdx2TypeMap[fldIdx]`. -/
def StInfo.getFieldTypeWithFldIdx (s : StInfo) (fldIdx : u32_t) : Ptr × StInfo :=
  let r := s.fldIdx2TypeMap.subscript fldIdx
  (r.1, { s with fldIdx2TypeMap := r.2 })

/-- The member `getFieldTypeWithByteOffset(u32_t offset)`: `offset2TypeMap[offset]`. -/
def StInfo.getFieldTypeWithByteOffset (s : StInfo) (offset : u32_t) : Ptr × StInfo :=
  let r := s.offset2TypeMap.subscript offset
  (r.1, { s with offset2TypeMap := r.2 })

/-- The accessor `getFieldIdxVec()`. -/
def StInfo.getFieldIdxVec (s : StInfo) : List u32_t := s.fldIdxVec

/-- The accessor `getFieldOffsetVec()`. -/
def StInfo.getFieldOffsetVec (s : StInfo) : List u32_t := s.foffset

/-- The accessor `getFlattenFieldInfoVec()`. -/
def StInfo.getFlattenFieldInfoVec (s : StInfo) : List FieldInfo := s.finfo

/-- The member `addFldWithType(u32_t fldIdx, u32_t offset, const llvm::Type* type)`. -/
def StInfo.addFldWithType (s : StInfo) (fldIdx offset : u32_t) (type : Ptr) : StInfo :=
  { s with
    fldIdxVec := s.fldIdxVec ++ [fldIdx]
    foffset := s.foffset ++ [offset]
    fldIdx2TypeMap := s.fldIdx2TypeMap.assign fldIdx type
    offset2TypeMap := s.offset2TypeMap.assign offset type }

/-- The arguments of one call of `addFldWithType`. -/
structure AddFldCall where
  fldIdx : u32_t
  offset : u32_t
  type : Ptr
  deriving DecidableEq, Repr

/-- A sequence of `addFldWithType` calls, made in list order. -/
def StInfo.addFlds (s : StInfo) (calls : List AddFldCall) : StInfo :=
  calls.foldl (fun st c => st.addFldWithType c.fldIdx c.offset c.type) s

/-! ## Sequences of `ObjTypeInfo` calls -/

/-- One call on an `ObjTypeInfo`: a mutator with its argument, or one of the
`hasFlag`/`is...` queries with the mask it tests. -/
inductive ObjTypeInfoCall where
  | setFlag (mask : Nat)
  | setMaxFieldOffsetLimit (limit : u32_t)
  | hasFlag (mask : Nat)
  deriving DecidableEq, Repr

/-- The descriptor after one call; the body of a query writes no member. -/
def ObjTypeInfo.call (d : ObjTypeInfo) : ObjTypeInfoCall → ObjTypeInfo
  | .setFlag mask => d.setFlag mask
  | .setMaxFieldOffsetLimit limit => d.setMaxFieldOffsetLimit limit
  | .hasFlag _ => d

/-- The descriptor after a sequence of calls, made in list order. -/
def ObjTypeInfo.calls (d : ObjTypeInfo) (cs : List ObjTypeInfoCall) : ObjTypeInfo :=
  cs.foldl ObjTypeInfo.call d

/-! ## `ObjSym` members defined outside the header -/

/-- Modelled from the spec: `ObjSym::getType()` is only declared in the header;
it is the type of the descriptor the object owns. -/
def ObjSym.getType (o : ObjSym) : Ptr := o.typeInfo.getType

/-- Modelled from the spec: `ObjSym::getMaxFieldOffsetLimit()` is only declared
in the header; it is the `maxFieldOffsetLimit` of the descriptor the object owns. -/
def ObjSym.getMaxFieldOffsetLimit (o : ObjSym) : u32_t := o.typeInfo.getMaxFieldOffsetLimit

/-- Modelled from the spec: `ObjSym::isFieldInsensitive()` is only declared in
the header, with the comment "Return true if its field limit is 0". -/
def ObjSym.isFieldInsensitive (o : ObjSym) : Bool := o.getMaxFieldOffsetLimit == 0

/-- Modelled from the spec: `ObjSym::setFieldInsensitive()` is only declared in
the header; the spec says it sets `maxFieldOffsetLimit = 0`. -/
def ObjSym.setFieldInsensitive (o : ObjSym) : ObjSym :=
  { o with typeInfo := o.typeInfo.setMaxFieldOffsetLimit 0 }

/-- Modelled from the spec: `ObjSym::setFieldSensitive()` is only declared in
the header; the spec says it restores the limit to
`min(nominalFieldCount, processWideMaxFieldLimit)`.  The nominal field count of
a type comes from the flattening engine, which is not in the header, and is a
parameter here. -/
def ObjSym.setFieldSensitive (nominalFieldCount : Ptr → u32_t) (g : Globals) (o : ObjSym) :
    ObjSym :=
  let limit := min (nominalFieldCount o.typeInfo.getType) (StInfo.getMaxFieldLimit g)
  { o with typeInfo := o.typeInfo.setMaxFieldOffsetLimit limit }

/-! ## Bit positions of the `MEMTYPE` flags -/

/-- The position of the single bit of each `MEMTYPE` enumerator. -/
def MEMTYPE.bit : MEMTYPE → Nat
  | .FUNCTION_OBJ => 0
  | .GLOBVAR_OBJ => 1
  | .STATIC_OBJ => 2
  | .STACK_OBJ => 3
  | .HEAP_OBJ => 4
  | .VAR_STRUCT_OBJ => 5
  | .VAR_ARRAY_OBJ => 6
  | .CONST_STRUCT_OBJ => 7
  | .CONST_ARRAY_OBJ => 8
  | .CONST_OBJ => 9
  | .HASPTR_OBJ => 10

/-! ## The aggregate flattening engine

The header holds the container the engine fills (`StInfo`); the engine itself
is outside the header and is modelled from the spec. -/

mutual
/-- Modelled from the spec: the shape of a program type as the flattening
engine sees it, which the header only holds as a type handle: a non-aggregate
leaf with its byte size, an array with its declared element count and element
type, or a struct with its members; every shape carries its type handle. -/
inductive AggType where
  | leaf (handle : Ptr) (size : Nat)
  | array (handle : Ptr) (count : Nat) (elem : AggType)
  | struct (handle : Ptr) (members : AggMembers)
/-- Modelled from the spec: the members of a struct in declaration order, each
with its declared byte offset within the struct. -/
inductive AggMembers where
  | nil
  | cons (offset : Nat) (member : AggType) (rest : AggMembers)
end

/-- Modelled from the spec: the type handle of a shape. -/
def AggType.handle : AggType → Ptr
  | .leaf h _ => h
  | .array h _ _ => h
  | .struct h _ => h

/-- Modelled from the spec: the members of a struct as a list of declared
offset and member type. -/
def AggMembers.toList : AggMembers → List (Nat × AggType)
  | .nil => []
  | .cons offset member rest => (offset, member) :: rest.toList

mutual
/-- Modelled from the spec: the full byte size of a type; the elements of an
array lie one after the other, and a struct extends to the end of the member
that ends last. -/
def AggType.byteSize : AggType → Nat
  | .leaf _ size => size
  | .array _ count elem => count * elem.byteSize
  | .struct _ members => members.byteSize
/-- Modelled from the spec: the extent of a member list. -/
def AggMembers.byteSize : AggMembers → Nat
  | .nil => 0
  | .cons offset member rest => max (offset + member.byteSize) rest.byteSize
end

mutual
/-- Modelled from the spec: the true leaf count of a type, the number of
non-aggregate fields reachable in it, an array counting once per element. -/
def AggType.leafCount : AggType → Nat
  | .leaf _ _ => 1
  | .array _ count elem => count * elem.leafCount
  | .struct _ members => members.leafCount
/-- Modelled from the spec: the true leaf count of a member list. -/
def AggMembers.leafCount : AggMembers → Nat
  | .nil => 0
  | .cons _ member rest => member.leafCount + rest.leafCount
end

mutual
/-- Modelled from the spec: the nesting depth of a type, 0 for a leaf. -/
def AggType.depth : AggType → Nat
  | .leaf _ _ => 0
  | .array _ _ elem => elem.depth + 1
  | .struct _ members => members.depth + 1
/-- Modelled from the spec: the deepest nesting among the members. -/
def AggMembers.depth : AggMembers → Nat
  | .nil => 0
  | .cons _ member rest => max member.depth rest.depth
end

mutual
/-- Modelled from the spec: the leaves of a type placed at byte offset `base`,
in depth-first declaration order, each with its true byte offset (the parent
offset plus the declared offset within the parent) and its leaf type. -/
def AggType.leaves : AggType → Nat → List (Nat × Ptr)
  | .leaf handle _, base => [(base, handle)]
  | .array _ count elem, base =>
    (List.range count).flatMap (fun k => elem.leaves (base + k * elem.byteSize))
  | .struct _ members, base => members.leaves base
/-- Modelled from the spec: the leaves of a member list of a struct placed at
byte offset `base`. -/
def AggMembers.leaves : AggMembers → Nat → List (Nat × Ptr)
  | .nil, _ => []
  | .cons offset member rest, base => member.leaves (base + offset) ++ rest.leaves base
end

/-- Modelled from the spec: the sub-fields the traversal descends into, with
their byte offsets within the aggregate: the members of a struct in
declaration order, the element type of an array once per declared element. -/
def AggType.subFields : AggType → List (Nat × AggType)
  | .leaf _ _ => []
  | .array _ count elem => (List.range count).map (fun k => (k * elem.byteSize, elem))
  | .struct _ members => members.toList

/-- Modelled from the spec: the state of one flatten: the `StInfo` being filled
and the running `flattenedIndex`; the running byte offset is the `base`
argument of the walk. -/
structure FlattenState where
  stinfo : StInfo
  flattenedIndex : u32_t
  deriving DecidableEq, Repr

/-- Modelled from the spec: the state a flatten starts from. -/
def FlattenState.init : FlattenState :=
  { stinfo := StInfo.ctor, flattenedIndex := 0 }

/-- Modelled from the spec: emitting one field: the field is recorded with
`addFldWithType` under the running index, its `FieldInfo` is appended, and the
index advances. -/
def FlattenState.emit (st : FlattenState) (byteOffset : u32_t) (type : Ptr) : FlattenState :=
  let s := st.stinfo.addFldWithType st.flattenedIndex byteOffset type
  { stinfo := { s with finfo := s.finfo ++ [⟨st.flattenedIndex, byteOffset, type⟩] }
    flattenedIndex := st.flattenedIndex + 1 }

/-- Modelled from the spec: the depth-first walk of the flattening engine.  A
leaf is emitted at the accumulated byte offset.  An aggregate whose expansion
would take the field count over `limit`, or that is met when the recursion
depth (`fuel`) is used up, is not descended into and becomes one synthetic
field at its own offset 0; otherwise its sub-fields are walked in order. -/
def flattenAux (limit : u32_t) : Nat → Nat → AggType → FlattenState → FlattenState
  | _, base, .leaf handle _, st => st.emit base handle
  | 0, base, .array handle _ _, st => st.emit base handle
  | 0, base, .struct handle _, st => st.emit base handle
  | fuel + 1, base, .array handle count elem, st =>
    if limit < st.flattenedIndex + (AggType.array handle count elem).leafCount then
      st.emit base handle
    else
      (AggType.array handle count elem).subFields.foldl
        (fun acc p => flattenAux limit fuel (base + p.1) p.2 acc) st
  | fuel + 1, base, .struct handle members, st =>
    if limit < st.flattenedIndex + (AggType.struct handle members).leafCount then
      st.emit base handle
    else
      (AggType.struct handle members).subFields.foldl
        (fun acc p => flattenAux limit fuel (base + p.1) p.2 acc) st

/-- Modelled from the spec: flattening a type under the configured maximum
field limit and the recursion-depth cap, from the type's base (offset 0). -/
def flatten (limit : u32_t) (maxDepth : Nat) (t : AggType) : FlattenState :=
  flattenAux limit maxDepth 0 t FlattenState.init

/-- Modelled from the spec: one field emitted per entry of a list of byte
offset and type, in list order. -/
def FlattenState.emitAll (st : FlattenState) (fields : List (Nat × Ptr)) : FlattenState :=
  fields.foldl (fun acc p => acc.emit p.1 p.2) st

/-- The type `int` of the scenario: handle 1, 4 bytes. -/
def scenarioInt : AggType := .leaf 1 4

/-- The type `struct{int,int}` of the scenario: handle 3. -/
def scenarioPair : AggType :=
  .struct 3 (.cons 0 scenarioInt (.cons 4 scenarioInt .nil))

/-- The type `struct {int, int[3], struct{int,int}}` of the scenario, with
4-byte `int`s laid out one after the other: handle 4, the array has handle 2. -/
def scenarioStruct : AggType :=
  .struct 4
    (.cons 0 scenarioInt
      (.cons 4 (.array 2 3 scenarioInt)
        (.cons 16 scenarioPair .nil)))

/-- A type wrapped in `n` structs of one member at offset 0. -/
def nestStruct : Nat → AggType → AggType
  | 0, t => t
  | n + 1, t => .struct 5 (.cons 0 (nestStruct n t) .nil)

/-! ## Theorems: the symbol hierarchy -/

/-- C1: for every symbol, whatever value its kind field holds, each class's
`classof` accepts it exactly when its kind is in that class's kind set;
`SVFVar::classof` accepts every symbol. -/
theorem classof_iff_kind_mem (s : SVFVar) :
    (ValSym.classof s = true ↔
      s.getKind ∈ [SYMTYPE.ValSymbol.toNat, SYMTYPE.BlkPtr.toNat, SYMTYPE.NullPtr.toNat]) ∧
    (ObjSym.classof s = true ↔
      s.getKind ∈ [SYMTYPE.ObjSymbol.toNat, SYMTYPE.BlackHole.toNat, SYMTYPE.ConstantObj.toNat]) ∧
    (IntrinsicSym.classof s = true ↔
      s.getKind ∈ [SYMTYPE.RetSymbol.toNat, SYMTYPE.VarargSymbol.toNat]) ∧
    (BlackHoleSym.classof s = true ↔ s.getKind ∈ [SYMTYPE.BlackHole.toNat]) ∧
    (ConstantObjSym.classof s = true ↔ s.getKind ∈ [SYMTYPE.ConstantObj.toNat]) ∧
    (BlkPtrSym.classof s = true ↔ s.getKind ∈ [SYMTYPE.BlkPtr.toNat]) ∧
    (NullPtrSym.classof s = true ↔ s.getKind ∈ [SYMTYPE.NullPtr.toNat]) ∧
    (RetSym.classof s = true ↔ s.getKind ∈ [SYMTYPE.RetSymbol.toNat]) ∧
    (VarargSym.classof s = true ↔ s.getKind ∈ [SYMTYPE.VarargSymbol.toNat]) ∧
    (SVFVar.classof s = true ↔ s.getKind ∈ Set.univ) := by
  simp [ValSym.classof, ObjSym.classof, IntrinsicSym.classof, BlackHoleSym.classof,
    ConstantObjSym.classof, BlkPtrSym.classof, NullPtrSym.classof, RetSym.classof,
    VarargSym.classof, SVFVar.classof, or_assoc]

/-- C2: two `ObjSym`s compare equal with `operator==` exactly when they have
the same value handle: the same handle with different ids compares equal, and
different handles never compare equal, not even with the same id. -/
theorem ObjSym_operatorEq_iff_same_value :
    (∀ a b : ObjSym, a.operatorEq b = true ↔ a.getValue = b.getValue) ∧
    (∀ a b : ObjSym, a.getValue = b.getValue → a.getId ≠ b.getId → a.operatorEq b = true) ∧
    (∀ a b : ObjSym, a.getValue ≠ b.getValue → a.getId = b.getId → a.operatorEq b = false) := by
  refine ⟨?_, ?_, ?_⟩
  · intro a b
    simp [ObjSym.operatorEq]
  · intro a b h _
    simp [ObjSym.operatorEq, h]
  · intro a b h _
    simp [ObjSym.operatorEq, h]

/-- C2, at concrete objects: ids 1 and 2 on handle 7 compare equal, and id 1 on
handles 7 and 8 does not. -/
theorem ObjSym_operatorEq_examples :
    ObjSym.operatorEq ⟨⟨7, 1, 5⟩, ⟨0, 0, 0⟩⟩ ⟨⟨7, 2, 5⟩, ⟨0, 0, 0⟩⟩ = true ∧
    ObjSym.operatorEq ⟨⟨7, 1, 5⟩, ⟨0, 0, 0⟩⟩ ⟨⟨8, 1, 5⟩, ⟨0, 0, 0⟩⟩ = false :=
  ⟨ObjSym_operatorEq_iff_same_value.2.1 _ _ rfl (by simp [ObjSym.getId, SVFVar.getId]),
   ObjSym_operatorEq_iff_same_value.2.2 _ _ (by simp [ObjSym.getValue, SVFVar.getValue]) rfl⟩

/-- C3: the constructors of `ValSym`, `RetSym` and `VarargSym` store the
class's own kind, but `BlkPtrSym(id)` and `NullPtrSym(id)` delegate to
`ValSym(id, nullptr)` and so carry the kind `ValSymbol`: their own `classof`
rejects the symbols they build. -/
theorem ctor_kinds (id : SymID) (val : Ptr) :
    (ValSym.ctor id val).getKind = SYMTYPE.ValSymbol.toNat ∧
    ValSym.classof (ValSym.ctor id val) = true ∧
    (RetSym.ctor id val).getKind = SYMTYPE.RetSymbol.toNat ∧
    RetSym.classof (RetSym.ctor id val) = true ∧
    (VarargSym.ctor id val).getKind = SYMTYPE.VarargSymbol.toNat ∧
    VarargSym.classof (VarargSym.ctor id val) = true ∧
    (BlkPtrSym.ctor id).getKind = SYMTYPE.ValSymbol.toNat ∧
    (BlkPtrSym.ctor id).getKind ≠ SYMTYPE.BlkPtr.toNat ∧
    BlkPtrSym.classof (BlkPtrSym.ctor id) = false ∧
    (NullPtrSym.ctor id).getKind = SYMTYPE.ValSymbol.toNat ∧
    (NullPtrSym.ctor id).getKind ≠ SYMTYPE.NullPtr.toNat ∧
    NullPtrSym.classof (NullPtrSym.ctor id) = false := by
  simp [ValSym.ctor, RetSym.ctor, VarargSym.ctor, BlkPtrSym.ctor,
    NullPtrSym.ctor, IntrinsicSym.ctor, SVFVar.ctor, SVFVar.getKind,
    ValSym.classof, RetSym.classof, VarargSym.classof, BlkPtrSym.classof,
    NullPtrSym.classof, SYMTYPE.toNat]

/-! ## Theorems: the object type descriptor -/

/-- A mask is contained in a word exactly when every bit of the mask is a bit
of the word. -/
theorem land_eq_right_iff (a m : Nat) :
    a &&& m = m ↔ ∀ i, m.testBit i = true → a.testBit i = true := by
  constructor
  · intro h i hm
    have hi : (a &&& m).testBit i = m.testBit i := by rw [h]
    rw [Nat.testBit_and, hm] at hi
    simpa using hi
  · intro h
    apply Nat.eq_of_testBit_eq
    intro i
    rw [Nat.testBit_and]
    cases hm : m.testBit i with
    | false => simp
    | true => simp [h i hm]

/-- The test `hasFlag` in terms of bits. -/
theorem hasFlag_iff_testBit (d : ObjTypeInfo) (m : Nat) :
    d.hasFlag m = true ↔ ∀ i, m.testBit i = true → d.flags.testBit i = true := by
  unfold ObjTypeInfo.hasFlag
  rw [beq_iff_eq]
  exact land_eq_right_iff d.flags m

/-- A flag that is set stays set across one call. -/
theorem hasFlag_call (d : ObjTypeInfo) (c : ObjTypeInfoCall) (f : Nat)
    (h : d.hasFlag f = true) : (d.call c).hasFlag f = true := by
  cases c with
  | setFlag mask =>
    rw [hasFlag_iff_testBit] at h ⊢
    intro i hi
    simp [ObjTypeInfo.call, ObjTypeInfo.setFlag, Nat.testBit_or, h i hi]
  | setMaxFieldOffsetLimit limit => exact h
  | hasFlag mask => exact h

/-- A flag that is set stays set across any sequence of calls. -/
theorem hasFlag_calls (cs : List ObjTypeInfoCall) (d : ObjTypeInfo) (f : Nat)
    (h : d.hasFlag f = true) : (d.calls cs).hasFlag f = true := by
  induction cs generalizing d with
  | nil => exact h
  | cons c cs ih => exact ih (d.call c) (hasFlag_call d c f h)

/-- C4: in every descriptor state `isStruct()` is true exactly when
`isVarStruct()` or `isConstStruct()` is, and `isArray()` exactly when
`isVarArray()` or `isConstArray()` is; each of the four combinations of the two
underlying flags occurs, and `isStruct()` and `isArray()` can hold together. -/
theorem isStruct_isArray_iff :
    (∀ d : ObjTypeInfo,
      (d.isStruct = true ↔ d.isVarStruct = true ∨ d.isConstStruct = true) ∧
      (d.isArray = true ↔ d.isVarArray = true ∨ d.isConstArray = true)) ∧
    (∀ v c : Bool, ∃ d : ObjTypeInfo,
      d.isVarStruct = v ∧ d.isConstStruct = c ∧ d.isStruct = (v || c)) ∧
    (∀ v c : Bool, ∃ d : ObjTypeInfo,
      d.isVarArray = v ∧ d.isConstArray = c ∧ d.isArray = (v || c)) ∧
    (∃ d : ObjTypeInfo, d.isStruct = true ∧ d.isArray = true) := by
  refine ⟨?_, ?_, ?_, ?_⟩
  · intro d
    simp [ObjTypeInfo.isStruct, ObjTypeInfo.isArray, ObjTypeInfo.isVarStruct,
      ObjTypeInfo.isConstStruct, ObjTypeInfo.isVarArray, ObjTypeInfo.isConstArray]
  · intro v c
    refine ⟨⟨0, (if v then 0x20 else 0) ||| (if c then 0x80 else 0), 0⟩, ?_⟩
    cases v <;> cases c <;> decide
  · intro v c
    refine ⟨⟨0, (if v then 0x40 else 0) ||| (if c then 0x100 else 0), 0⟩, ?_⟩
    cases v <;> cases c <;> decide
  · exact ⟨⟨0, 0x60, 0⟩, by decide⟩

/-- C5: `setFlag` is monotonic: a flag that held before `setFlag(m)` holds
after it, the mask `m` itself holds after it, and no sequence of `setFlag`,
`setMaxFieldOffsetLimit` and query calls clears a flag that was set. -/
theorem setFlag_monotonic (d : ObjTypeInfo) (m f : Nat) (h : d.hasFlag f = true) :
    (d.setFlag m).hasFlag f = true ∧
    (d.setFlag m).hasFlag m = true ∧
    (∀ cs : List ObjTypeInfoCall, (d.calls cs).hasFlag f = true) := by
  refine ⟨hasFlag_call d (.setFlag m) f h, ?_, fun cs => hasFlag_calls cs d f h⟩
  rw [hasFlag_iff_testBit]
  intro i hi
  simp [ObjTypeInfo.setFlag, Nat.testBit_or, hi]

/-- C5, at a concrete descriptor: `VAR_STRUCT_OBJ` is set, `VAR_ARRAY_OBJ` is
added. -/
theorem setFlag_monotonic_witness :
    (ObjTypeInfo.mk 0 0x20 0).hasFlag MEMTYPE.VAR_STRUCT_OBJ.toNat = true ∧
    (((ObjTypeInfo.mk 0 0x20 0).setFlag MEMTYPE.VAR_ARRAY_OBJ.toNat).hasFlag
        MEMTYPE.VAR_STRUCT_OBJ.toNat = true ∧
      ((ObjTypeInfo.mk 0 0x20 0).setFlag MEMTYPE.VAR_ARRAY_OBJ.toNat).hasFlag
        MEMTYPE.VAR_ARRAY_OBJ.toNat = true ∧
      (∀ cs : List ObjTypeInfoCall,
        ((ObjTypeInfo.mk 0 0x20 0).calls cs).hasFlag MEMTYPE.VAR_STRUCT_OBJ.toNat = true)) :=
  ⟨by decide, setFlag_monotonic _ _ _ (by decide)⟩

/-- A bound on the stored limit survives any sequence of calls whose
`setMaxFieldOffsetLimit` arguments respect the bound. -/
theorem maxOffsetLimit_calls_le (L : Nat) (cs : List ObjTypeInfoCall) (d : ObjTypeInfo)
    (hd : d.maxOffsetLimit ≤ L)
    (hcs : ∀ n, ObjTypeInfoCall.setMaxFieldOffsetLimit n ∈ cs → n ≤ L) :
    (d.calls cs).maxOffsetLimit ≤ L := by
  induction cs generalizing d with
  | nil => exact hd
  | cons c cs ih =>
    have htail : ∀ n, ObjTypeInfoCall.setMaxFieldOffsetLimit n ∈ cs → n ≤ L :=
      fun n hn => hcs n (List.mem_cons_of_mem c hn)
    have hstep : (d.call c).maxOffsetLimit ≤ L := by
      cases c with
      | setFlag mask => exact hd
      | setMaxFieldOffsetLimit limit => exact hcs limit (List.mem_cons_self _ _)
      | hasFlag mask => exact hd
    exact ih (d.call c) hstep htail

/-- C6, as stated, fails: with the process-wide limit at 512, either
constructor called with `max = 1000`, or `setMaxFieldOffsetLimit(1000)` on a
descriptor built with `max = 0`, gives a per-object limit of 1000. -/
theorem maxFieldOffsetLimit_exceeds_maxFieldLimit :
    ¬ ((ObjTypeInfo.ctor 0 0 1000).getMaxFieldOffsetLimit ≤ StInfo.getMaxFieldLimit ⟨512⟩) ∧
    ¬ ((ObjTypeInfo.ctorMaxType 1000 0).getMaxFieldOffsetLimit ≤ StInfo.getMaxFieldLimit ⟨512⟩) ∧
    ¬ (((ObjTypeInfo.ctorMaxType 0 0).calls
          [.setMaxFieldOffsetLimit 1000]).getMaxFieldOffsetLimit ≤
        StInfo.getMaxFieldLimit ⟨512⟩) := by
  decide

/-- C6, amended: the descriptor does not clamp, so the per-object limit stays
at most `StInfo::getMaxFieldLimit()` when the constructor's `max` and every
`setMaxFieldOffsetLimit` argument are at most it; `setMaxFieldOffsetLimit`
stores its argument, so the limit can be lowered to 0 and raised again. -/
theorem maxFieldOffsetLimit_le_of_args_le (g : Globals) (val t : Ptr) (max : u32_t)
    (cs : List ObjTypeInfoCall)
    (hmax : max ≤ StInfo.getMaxFieldLimit g)
    (hcs : ∀ n, ObjTypeInfoCall.setMaxFieldOffsetLimit n ∈ cs → n ≤ StInfo.getMaxFieldLimit g) :
    ((ObjTypeInfo.ctor val t max).calls cs).getMaxFieldOffsetLimit ≤ StInfo.getMaxFieldLimit g ∧
    ((ObjTypeInfo.ctorMaxType max t).calls cs).getMaxFieldOffsetLimit ≤
      StInfo.getMaxFieldLimit g ∧
    (∀ (d : ObjTypeInfo) (n : u32_t),
      (d.setMaxFieldOffsetLimit 0).getMaxFieldOffsetLimit = 0 ∧
      ((d.setMaxFieldOffsetLimit 0).setMaxFieldOffsetLimit n).getMaxFieldOffsetLimit = n) :=
  ⟨maxOffsetLimit_calls_le _ cs _ hmax hcs, maxOffsetLimit_calls_le _ cs _ hmax hcs,
   fun _ _ => ⟨rfl, rfl⟩⟩

/-- C6, amended, at a concrete run: limit 512, a descriptor built with
`max = 100`, classified, made field-insensitive and raised to 512 again. -/
theorem maxFieldOffsetLimit_le_of_args_le_witness :
    ((ObjTypeInfo.ctor 0 9 100).calls
        [.setFlag 0x20, .setMaxFieldOffsetLimit 0, .setMaxFieldOffsetLimit 512]
      ).getMaxFieldOffsetLimit ≤ StInfo.getMaxFieldLimit ⟨512⟩ :=
  (maxFieldOffsetLimit_le_of_args_le ⟨512⟩ 0 9 100
    [.setFlag 0x20, .setMaxFieldOffsetLimit 0, .setMaxFieldOffsetLimit 512]
    (by decide) (by
      intro n hn
      simp at hn
      rcases hn with rfl | rfl <;> decide)).1

/-! ## Theorems: field sensitivity of a memory object -/

/-- C7, as stated, fails: an object of limit 3 whose type has 10 nominal fields
(process-wide limit 512) comes back with limit 10; and whatever the nominal
field counts and the process-wide limit are, the round trip cannot give every
object its old limit back, since it ends in a state that does not depend on it. -/
theorem setFieldSensitive_does_not_restore :
    (ObjSym.setFieldSensitive (fun _ => 10) ⟨512⟩
        (ObjSym.setFieldInsensitive ⟨⟨7, 1, 5⟩, ⟨9, 0, 3⟩⟩)).getMaxFieldOffsetLimit = 10 ∧
    (ObjSym.mk ⟨7, 1, 5⟩ ⟨9, 0, 3⟩).getMaxFieldOffsetLimit = 3 ∧
    ¬ ∃ (nominalFieldCount : Ptr → u32_t) (g : Globals), ∀ o : ObjSym,
        (ObjSym.setFieldSensitive nominalFieldCount g
          o.setFieldInsensitive).getMaxFieldOffsetLimit = o.getMaxFieldOffsetLimit := by
  refine ⟨by decide, by decide, ?_⟩
  rintro ⟨nfc, g, h⟩
  have h3 : min (nfc 9) (StInfo.getMaxFieldLimit g) = 3 := h ⟨⟨7, 1, 5⟩, ⟨9, 0, 3⟩⟩
  have h5 : min (nfc 9) (StInfo.getMaxFieldLimit g) = 5 := h ⟨⟨7, 1, 5⟩, ⟨9, 0, 5⟩⟩
  rw [h3] at h5
  exact absurd h5 (by decide)

/-- C7, amended: `setFieldInsensitive()` makes the limit 0, so
`isFieldInsensitive()` is true; `setFieldSensitive()` right after it leaves the
limit at `min(nominalFieldCount, StInfo::getMaxFieldLimit())`, which is the old
limit exactly when the old limit was already that value; the symbol's own
members, the type and the flags are untouched. -/
theorem setFieldInsensitive_then_setFieldSensitive (nominalFieldCount : Ptr → u32_t)
    (g : Globals) (o : ObjSym) :
    o.setFieldInsensitive.getMaxFieldOffsetLimit = 0 ∧
    o.setFieldInsensitive.isFieldInsensitive = true ∧
    (ObjSym.setFieldSensitive nominalFieldCount g o.setFieldInsensitive).getMaxFieldOffsetLimit =
      min (nominalFieldCount o.getType) (StInfo.getMaxFieldLimit g) ∧
    ((ObjSym.setFieldSensitive nominalFieldCount g o.setFieldInsensitive).getMaxFieldOffsetLimit =
        o.getMaxFieldOffsetLimit ↔
      o.getMaxFieldOffsetLimit = min (nominalFieldCount o.getType) (StInfo.getMaxFieldLimit g)) ∧
    (ObjSym.setFieldSensitive nominalFieldCount g o.setFieldInsensitive).getType = o.getType ∧
    (ObjSym.setFieldSensitive nominalFieldCount g o.setFieldInsensitive).typeInfo.flags =
      o.typeInfo.flags ∧
    (ObjSym.setFieldSensitive nominalFieldCount g o.setFieldInsensitive).toSVFVar =
      o.toSVFVar := by
  refine ⟨rfl, rfl, rfl, ?_, rfl, rfl, rfl⟩
  constructor
  · intro h
    rw [← h]
    rfl
  · intro h
    rw [h]
    rfl

/-! ## Theorems: struct information -/

/-- The index vector after a sequence of `addFldWithType` calls. -/
theorem addFlds_fldIdxVec (calls : List AddFldCall) (s : StInfo) :
    (s.addFlds calls).fldIdxVec = s.fldIdxVec ++ calls.map AddFldCall.fldIdx := by
  induction calls generalizing s with
  | nil => simp [StInfo.addFlds]
  | cons c cs ih =>
    have h := ih (s.addFldWithType c.fldIdx c.offset c.type)
    simp only [StInfo.addFlds, List.foldl_cons] at h ⊢
    rw [h]
    simp [StInfo.addFldWithType]

/-- The offset vector after a sequence of `addFldWithType` calls. -/
theorem addFlds_foffset (calls : List AddFldCall) (s : StInfo) :
    (s.addFlds calls).foffset = s.foffset ++ calls.map AddFldCall.offset := by
  induction calls generalizing s with
  | nil => simp [StInfo.addFlds]
  | cons c cs ih =>
    have h := ih (s.addFldWithType c.fldIdx c.offset c.type)
    simp only [StInfo.addFlds, List.foldl_cons] at h ⊢
    rw [h]
    simp [StInfo.addFldWithType]

/-- The field-info vector is not written by `addFldWithType`. -/
theorem addFlds_finfo (calls : List AddFldCall) (s : StInfo) :
    (s.addFlds calls).finfo = s.finfo := by
  induction calls generalizing s with
  | nil => rfl
  | cons c cs ih =>
    have h := ih (s.addFldWithType c.fldIdx c.offset c.type)
    simp only [StInfo.addFlds, List.foldl_cons] at h ⊢
    rw [h]
    rfl

/-- Overwriting the value of a key keeps the keys of a map. -/
theorem keys_overwrite (es : List (u32_t × Ptr)) (k : u32_t) (v : Ptr) :
    (es.map (fun e => if e.1 == k then (e.1, v) else e)).map Prod.fst = es.map Prod.fst := by
  induction es with
  | nil => rfl
  | cons e es ih =>
    simp only [List.map_cons, ih]
    congr 1
    split <;> rfl

/-- The keys after `m[k] = v`: those of `m`, and `k`. -/
theorem mem_keys_assign (m : Map) (k : u32_t) (v : Ptr) (j : u32_t) :
    j ∈ (m.assign k v).keys ↔ j ∈ m.keys ∨ j = k := by
  unfold Map.assign
  split
  · rename_i hk
    simp only [Map.keys, keys_overwrite]
    constructor
    · intro h
      exact Or.inl h
    · rintro (h | rfl)
      · exact h
      · exact hk
  · simp [Map.keys]

/-- The statement `m[k] = v` keeps the keys of a map distinct. -/
theorem nodup_keys_assign (m : Map) (k : u32_t) (v : Ptr) (h : m.keys.Nodup) :
    (m.assign k v).keys.Nodup := by
  unfold Map.assign
  split
  · simpa only [Map.keys, keys_overwrite] using h
  · rename_i hk
    simp only [Map.keys, List.map_append, List.map_cons, List.map_nil]
    exact List.Nodup.append h (List.nodup_singleton k) (by
      intro a ha hb
      rw [List.mem_singleton] at hb
      exact hk (hb ▸ ha))

/-- The keys of the index map after a sequence of `addFldWithType` calls. -/
theorem mem_keys_addFlds_fldIdx (calls : List AddFldCall) (s : StInfo) (j : u32_t) :
    j ∈ (s.addFlds calls).fldIdx2TypeMap.keys ↔
      j ∈ s.fldIdx2TypeMap.keys ∨ j ∈ calls.map AddFldCall.fldIdx := by
  induction calls generalizing s with
  | nil => simp [StInfo.addFlds]
  | cons c cs ih =>
    have h := ih (s.addFldWithType c.fldIdx c.offset c.type)
    simp only [StInfo.addFlds, List.foldl_cons] at h ⊢
    rw [h]
    simp only [StInfo.addFldWithType, mem_keys_assign, List.map_cons, List.mem_cons]
    tauto

/-- The keys of the offset map after a sequence of `addFldWithType` calls. -/
theorem mem_keys_addFlds_offset (calls : List AddFldCall) (s : StInfo) (j : u32_t) :
    j ∈ (s.addFlds calls).offset2TypeMap.keys ↔
      j ∈ s.offset2TypeMap.keys ∨ j ∈ calls.map AddFldCall.offset := by
  induction calls generalizing s with
  | nil => simp [StInfo.addFlds]
  | cons c cs ih =>
    have h := ih (s.addFldWithType c.fldIdx c.offset c.type)
    simp only [StInfo.addFlds, List.foldl_cons] at h ⊢
    rw [h]
    simp only [StInfo.addFldWithType, mem_keys_assign, List.map_cons, List.mem_cons]
    tauto

/-- Both maps keep distinct keys across a sequence of `addFldWithType` calls. -/
theorem nodup_keys_addFlds (calls : List AddFldCall) (s : StInfo)
    (hi : s.fldIdx2TypeMap.keys.Nodup) (ho : s.offset2TypeMap.keys.Nodup) :
    (s.addFlds calls).fldIdx2TypeMap.keys.Nodup ∧ (s.addFlds calls).offset2TypeMap.keys.Nodup := by
  induction calls generalizing s with
  | nil => exact ⟨hi, ho⟩
  | cons c cs ih =>
    exact ih (s.addFldWithType c.fldIdx c.offset c.type)
      (nodup_keys_assign _ _ _ hi) (nodup_keys_assign _ _ _ ho)

/-- C8, as stated, fails: after one `addFldWithType` call on a fresh `StInfo`
the index and offset vectors have one element and the field-info vector none. -/
theorem finfo_length_differs :
    (StInfo.ctor.addFlds [⟨0, 0, 1⟩]).getFieldIdxVec.length = 1 ∧
    (StInfo.ctor.addFlds [⟨0, 0, 1⟩]).getFieldOffsetVec.length = 1 ∧
    (StInfo.ctor.addFlds [⟨0, 0, 1⟩]).getFlattenFieldInfoVec.length = 0 ∧
    ¬ ((StInfo.ctor.addFlds [⟨0, 0, 1⟩]).getFieldOffsetVec.length =
        (StInfo.ctor.addFlds [⟨0, 0, 1⟩]).getFlattenFieldInfoVec.length) := by
  decide

/-- C8, amended: after any sequence of `addFldWithType` calls on a fresh
`StInfo` the index and offset vectors have the same length, the number of
calls; `addFldWithType` does not write the field-info vector, which is still
empty. -/
theorem fldIdxVec_foffset_same_length (calls : List AddFldCall) :
    (StInfo.ctor.addFlds calls).getFieldIdxVec.length =
      (StInfo.ctor.addFlds calls).getFieldOffsetVec.length ∧
    (StInfo.ctor.addFlds calls).getFieldIdxVec.length = calls.length ∧
    (StInfo.ctor.addFlds calls).getFlattenFieldInfoVec = [] := by
  simp [StInfo.getFieldIdxVec, StInfo.getFieldOffsetVec, StInfo.getFlattenFieldInfoVec,
    addFlds_fldIdxVec, addFlds_foffset, addFlds_finfo, StInfo.ctor]

/-- C9: after the calls `addFldWithType(i_1,o_1,t_1)`, ..., `addFldWithType(i_n,o_n,t_n)`
on a fresh `StInfo`, the index vector is `[i_1,...,i_n]` and the offset vector
is `[o_1,...,o_n]`, in call order: both have length `n`, and position `k` of
each holds the index and the offset of the `k`-th call. -/
theorem addFlds_vectors_in_call_order (calls : List AddFldCall) :
    (StInfo.ctor.addFlds calls).getFieldIdxVec = calls.map AddFldCall.fldIdx ∧
    (StInfo.ctor.addFlds calls).getFieldOffsetVec = calls.map AddFldCall.offset ∧
    (StInfo.ctor.addFlds calls).getFieldIdxVec.length = calls.length ∧
    (StInfo.ctor.addFlds calls).getFieldOffsetVec.length = calls.length ∧
    (∀ k : Nat,
      (StInfo.ctor.addFlds calls).getFieldIdxVec[k]? = (calls[k]?).map AddFldCall.fldIdx ∧
      (StInfo.ctor.addFlds calls).getFieldOffsetVec[k]? = (calls[k]?).map AddFldCall.offset) := by
  have hi : (StInfo.ctor.addFlds calls).getFieldIdxVec = calls.map AddFldCall.fldIdx := by
    simp [StInfo.getFieldIdxVec, addFlds_fldIdxVec, StInfo.ctor]
  have ho : (StInfo.ctor.addFlds calls).getFieldOffsetVec = calls.map AddFldCall.offset := by
    simp [StInfo.getFieldOffsetVec, addFlds_foffset, StInfo.ctor]
  refine ⟨hi, ho, ?_, ?_, ?_⟩
  · rw [hi, List.length_map]
  · rw [ho, List.length_map]
  · intro k
    rw [hi, ho]
    simp

/-- C10: after any sequence of `addFldWithType` calls on a fresh `StInfo`, the
keys of the index-to-type map are exactly the values occurring in the index
vector, and the keys of the offset-to-type map exactly the values occurring in
the offset vector; no key occurs twice in a map. -/
theorem map_keys_eq_vector_values (calls : List AddFldCall) :
    (StInfo.ctor.addFlds calls).fldIdx2TypeMap.keys.toFinset =
      (StInfo.ctor.addFlds calls).getFieldIdxVec.toFinset ∧
    (StInfo.ctor.addFlds calls).offset2TypeMap.keys.toFinset =
      (StInfo.ctor.addFlds calls).getFieldOffsetVec.toFinset ∧
    (StInfo.ctor.addFlds calls).fldIdx2TypeMap.keys.Nodup ∧
    (StInfo.ctor.addFlds calls).offset2TypeMap.keys.Nodup := by
  have hn := nodup_keys_addFlds calls StInfo.ctor List.nodup_nil List.nodup_nil
  refine ⟨?_, ?_, hn.1, hn.2⟩
  · ext j
    rw [List.mem_toFinset, List.mem_toFinset, mem_keys_addFlds_fldIdx, StInfo.getFieldIdxVec,
      addFlds_fldIdxVec]
    simp [StInfo.ctor, Map.empty, Map.keys]
  · ext j
    rw [List.mem_toFinset, List.mem_toFinset, mem_keys_addFlds_offset, StInfo.getFieldOffsetVec,
      addFlds_foffset]
    simp [StInfo.ctor, Map.empty, Map.keys]

/-! ## Theorems: the lookups of `StInfo` -/

/-- A key of the map is found by `find`. -/
theorem find_isSome_of_mem_keys (m : Map) (k : u32_t) (h : k ∈ m.keys) :
    ∃ v, m.find k = some v := by
  unfold Map.find
  cases hf : m.entries.find? (fun e => e.1 == k) with
  | some e => exact ⟨e.2, rfl⟩
  | none =>
    rw [List.find?_eq_none] at hf
    simp only [Map.keys, List.mem_map] at h
    obtain ⟨e, he, rfl⟩ := h
    exact absurd (hf e he) (by simp)

/-- The value `m[k]` is the mapped value of `k`, or null for a key without entry. -/
theorem subscript_fst (m : Map) (k : u32_t) :
    (m.subscript k).1 = (m.find k).getD nullptr := by
  unfold Map.subscript
  cases m.find k <;> rfl

/-- Reading `m[k]` for a key of the map leaves the map as it is. -/
theorem subscript_snd_of_mem_keys (m : Map) (k : u32_t) (h : k ∈ m.keys) :
    (m.subscript k).2 = m := by
  obtain ⟨v, hv⟩ := find_isSome_of_mem_keys m k h
  simp [Map.subscript, hv]

/-- After the value of `k` is overwritten in every entry of `k`, the first entry
of `k` holds the new value. -/
theorem find_overwrite_self (es : List (u32_t × Ptr)) (k : u32_t) (v : Ptr)
    (h : k ∈ es.map Prod.fst) :
    (es.map (fun e => if e.1 == k then (e.1, v) else e)).find? (fun e => e.1 == k) =
      some (k, v) := by
  induction es with
  | nil => simp at h
  | cons e es ih =>
    rw [List.map_cons, List.find?_cons]
    by_cases hek : e.1 = k
    · simp [hek]
    · have hmem : k ∈ es.map Prod.fst := by
        simp only [List.map_cons, List.mem_cons] at h
        rcases h with h | h
        · exact absurd h.symm hek
        · exact h
      have hb : (e.1 == k) = false := by simpa using hek
      rw [hb]
      simp only [Bool.false_eq_true, if_false, hb]
      exact ih hmem

/-- Overwriting the value of `k` does not change what another key finds. -/
theorem find_overwrite_ne (es : List (u32_t × Ptr)) (k j : u32_t) (v : Ptr) (h : j ≠ k) :
    (es.map (fun e => if e.1 == k then (e.1, v) else e)).find? (fun e => e.1 == j) =
      es.find? (fun e => e.1 == j) := by
  induction es with
  | nil => rfl
  | cons e es ih =>
    rw [List.map_cons, List.find?_cons, List.find?_cons, ih]
    by_cases hek : e.1 = k
    · have hkj : (k == j) = false := by simpa using fun hkj : k = j => h hkj.symm
      have hb : (e.1 == k) = true := by simpa using hek
      have hej : (e.1 == j) = false := by rw [hek]; exact hkj
      rw [hb]
      simp only [if_true, hek, hkj, hej]
    · have hb : (e.1 == k) = false := by simpa using hek
      rw [hb]
      simp only [Bool.false_eq_true, if_false]

/-- After `m[k] = v` the key `k` finds `v`. -/
theorem find_assign_self (m : Map) (k : u32_t) (v : Ptr) :
    (m.assign k v).find k = some v := by
  unfold Map.assign
  split
  · rename_i hk
    show ((m.entries.map (fun e => if e.1 == k then (e.1, v) else e)).find?
      (fun e => e.1 == k)).map Prod.snd = some v
    rw [find_overwrite_self m.entries k v hk]
    rfl
  · rename_i hk
    have hnone : m.entries.find? (fun e => e.1 == k) = none := by
      rw [List.find?_eq_none]
      intro e he
      have : e.1 ≠ k := fun hek => hk (by
        simp only [Map.keys, List.mem_map]
        exact ⟨e, he, hek⟩)
      simpa using this
    simp [Map.find, List.find?_append, hnone]

/-- After `m[k] = v` every other key finds what it found before. -/
theorem find_assign_ne (m : Map) (k j : u32_t) (v : Ptr) (h : j ≠ k) :
    (m.assign k v).find j = m.find j := by
  unfold Map.assign
  split
  · show ((m.entries.map (fun e => if e.1 == k then (e.1, v) else e)).find?
      (fun e => e.1 == j)).map Prod.snd = (m.entries.find? (fun e => e.1 == j)).map Prod.snd
    rw [find_overwrite_ne m.entries k j v h]
  · have hj : ¬ k = j := fun hkj => h hkj.symm
    simp only [Map.find, List.find?_append]
    cases m.entries.find? (fun e => e.1 == j) <;> simp [hj]

/-- C11: the lookups are not read-only for a key that was never added: on a
fresh `StInfo`, `getFieldTypeWithFldIdx(5)` returns null and leaves the key 5
in the index map, and `getFieldTypeWithByteOffset(5)` does the same to the
offset map, while both vectors stay empty; only for a key that is in the map
does the lookup leave the `StInfo` as it was. -/
theorem lookup_inserts_missing_key :
    (StInfo.ctor.getFieldTypeWithFldIdx 5).1 = nullptr ∧
    (StInfo.ctor.getFieldTypeWithFldIdx 5).2 ≠ StInfo.ctor ∧
    (StInfo.ctor.getFieldTypeWithFldIdx 5).2.fldIdx2TypeMap.keys = [5] ∧
    (StInfo.ctor.getFieldTypeWithFldIdx 5).2.getFieldIdxVec = [] ∧
    (StInfo.ctor.getFieldTypeWithByteOffset 5).1 = nullptr ∧
    (StInfo.ctor.getFieldTypeWithByteOffset 5).2 ≠ StInfo.ctor ∧
    (StInfo.ctor.getFieldTypeWithByteOffset 5).2.offset2TypeMap.keys = [5] ∧
    (StInfo.ctor.getFieldTypeWithByteOffset 5).2.getFieldOffsetVec = [] ∧
    (∀ (s : StInfo) (k : u32_t), k ∈ s.fldIdx2TypeMap.keys →
      (s.getFieldTypeWithFldIdx k).2 = s) ∧
    (∀ (s : StInfo) (k : u32_t), k ∈ s.offset2TypeMap.keys →
      (s.getFieldTypeWithByteOffset k).2 = s) := by
  refine ⟨by decide, by decide, by decide, by decide, by decide, by decide, by decide,
    by decide, ?_, ?_⟩
  · intro s k hk
    simp [StInfo.getFieldTypeWithFldIdx, subscript_snd_of_mem_keys _ _ hk]
  · intro s k hk
    simp [StInfo.getFieldTypeWithByteOffset, subscript_snd_of_mem_keys _ _ hk]

/-- C16: `addFldWithType(i, o, t)` records `t` under both keys: afterwards
`getFieldTypeWithFldIdx(i)` and `getFieldTypeWithByteOffset(o)` return `t`, and
every other index and every other offset looks up the same type as before. -/
theorem addFldWithType_last_write_wins (s : StInfo) (i o : u32_t) (t : Ptr) :
    ((s.addFldWithType i o t).getFieldTypeWithFldIdx i).1 = t ∧
    ((s.addFldWithType i o t).getFieldTypeWithByteOffset o).1 = t ∧
    (∀ j : u32_t, j ≠ i →
      ((s.addFldWithType i o t).getFieldTypeWithFldIdx j).1 = (s.getFieldTypeWithFldIdx j).1) ∧
    (∀ j : u32_t, j ≠ o →
      ((s.addFldWithType i o t).getFieldTypeWithByteOffset j).1 =
        (s.getFieldTypeWithByteOffset j).1) := by
  refine ⟨?_, ?_, ?_, ?_⟩
  · simp [StInfo.getFieldTypeWithFldIdx, StInfo.addFldWithType, subscript_fst, find_assign_self]
  · simp [StInfo.getFieldTypeWithByteOffset, StInfo.addFldWithType, subscript_fst,
      find_assign_self]
  · intro j hj
    simp [StInfo.getFieldTypeWithFldIdx, StInfo.addFldWithType, subscript_fst,
      find_assign_ne _ _ _ _ hj]
  · intro j hj
    simp [StInfo.getFieldTypeWithByteOffset, StInfo.addFldWithType, subscript_fst,
      find_assign_ne _ _ _ _ hj]

/-! ## Theorems: the process-wide field limit -/

/-- C12, as stated, fails: after `setMaxFieldLimit(512)` and a read of the
limit, `setMaxFieldLimit(7)` is carried out and `getMaxFieldLimit()` returns 7,
not 512. -/
theorem setMaxFieldLimit_overwrites :
    StInfo.getMaxFieldLimit (StInfo.setMaxFieldLimit ⟨0⟩ 512) = 512 ∧
    StInfo.getMaxFieldLimit (StInfo.setMaxFieldLimit (StInfo.setMaxFieldLimit ⟨0⟩ 512) 7) = 7 ∧
    StInfo.getMaxFieldLimit (StInfo.setMaxFieldLimit (StInfo.setMaxFieldLimit ⟨0⟩ 512) 7) ≠
      StInfo.getMaxFieldLimit (StInfo.setMaxFieldLimit ⟨0⟩ 512) := by
  decide

/-- C12, amended: `setMaxFieldLimit` is not set-once: every call stores its
argument, whatever was set or read before, and `getMaxFieldLimit()` returns the
argument of the latest call. -/
theorem getMaxFieldLimit_is_latest_set (g : Globals) (limits : List u32_t) (limit : u32_t) :
    StInfo.getMaxFieldLimit (StInfo.setMaxFieldLimit g limit) = limit ∧
    StInfo.getMaxFieldLimit ((limits ++ [limit]).foldl StInfo.setMaxFieldLimit g) = limit := by
  refine ⟨rfl, ?_⟩
  rw [List.foldl_append]
  rfl

/-! ## Theorems: intrinsic symbols -/

/-- C13, as stated, fails: `RetSym(0, nullptr)` and `VarargSym(0, nullptr)` are
built like any other, with a null `getValue()`, and their `classof` accepts them. -/
theorem intrinsic_ctor_accepts_null :
    (RetSym.ctor 0 nullptr).getValue = nullptr ∧
    RetSym.classof (RetSym.ctor 0 nullptr) = true ∧
    (VarargSym.ctor 0 nullptr).getValue = nullptr ∧
    VarargSym.classof (VarargSym.ctor 0 nullptr) = true := by
  decide

/-- C13, amended: the constructors of `RetSym` and `VarargSym` accept every
function pointer, null included, and store it: `getValue()` is the pointer that
was passed, so it is null exactly when a null function was passed. -/
theorem intrinsic_ctor_stores_function (id : SymID) (func : Ptr) :
    (RetSym.ctor id func).getValue = func ∧
    (RetSym.ctor id func).getId = id ∧
    (RetSym.ctor id func).getKind = SYMTYPE.RetSymbol.toNat ∧
    (VarargSym.ctor id func).getValue = func ∧
    (VarargSym.ctor id func).getId = id ∧
    (VarargSym.ctor id func).getKind = SYMTYPE.VarargSymbol.toNat ∧
    ((RetSym.ctor id func).getValue = nullptr ↔ func = nullptr) ∧
    ((VarargSym.ctor id func).getValue = nullptr ↔ func = nullptr) :=
  ⟨rfl, rfl, rfl, rfl, rfl, rfl, Iff.rfl, Iff.rfl⟩

/-! ## Theorems: sequences of `setFlag` calls -/

/-- A sequence of `setFlag` calls touches the flags word only, which becomes the
bitwise or of the old word and the masks. -/
theorem calls_setFlag_eq (ms : List Nat) (d : ObjTypeInfo) :
    d.calls (ms.map ObjTypeInfoCall.setFlag) =
      { d with flags := ms.foldl (fun w m => w ||| m) d.flags } := by
  induction ms generalizing d with
  | nil => rfl
  | cons m ms ih =>
    have h := ih (d.setFlag m)
    simp only [ObjTypeInfo.calls, List.map_cons, List.foldl_cons, ObjTypeInfo.call] at h ⊢
    rw [h]
    rfl

/-- A bit of the bitwise or of a word and a list of masks is a bit of the word
or of one of the masks. -/
theorem foldl_lor_testBit (ms : List Nat) (w i : Nat) :
    (ms.foldl (fun w m => w ||| m) w).testBit i =
      (w.testBit i || ms.any (fun m => m.testBit i)) := by
  induction ms generalizing w with
  | nil => simp
  | cons m ms ih =>
    rw [List.foldl_cons, ih, Nat.testBit_or, List.any_cons, Bool.or_assoc]

/-- The bitwise or of a word and a list of masks depends only on which masks
occur in the list. -/
theorem foldl_lor_congr (ms ms' : List Nat) (w : Nat) (h : ∀ m, m ∈ ms ↔ m ∈ ms') :
    ms.foldl (fun w m => w ||| m) w = ms'.foldl (fun w m => w ||| m) w := by
  apply Nat.eq_of_testBit_eq
  intro i
  rw [foldl_lor_testBit, foldl_lor_testBit]
  congr 1
  rw [Bool.eq_iff_iff, List.any_eq_true, List.any_eq_true]
  constructor
  · rintro ⟨m, hm, hb⟩
    exact ⟨m, (h m).1 hm, hb⟩
  · rintro ⟨m, hm, hb⟩
    exact ⟨m, (h m).2 hm, hb⟩

/-- C15: after `setFlag(m_1); ...; setFlag(m_n)` the flags word is
`F | m_1 | ... | m_n` and nothing else has changed; the result depends only on
which masks were set, so neither the order of the calls nor a repeated call
matters. -/
theorem setFlag_sequence_is_union (d : ObjTypeInfo) (ms : List Nat) :
    (d.calls (ms.map ObjTypeInfoCall.setFlag)).flags = ms.foldl (fun w m => w ||| m) d.flags ∧
    (∀ i : Nat, (d.calls (ms.map ObjTypeInfoCall.setFlag)).flags.testBit i =
      (d.flags.testBit i || ms.any (fun m => m.testBit i))) ∧
    (d.calls (ms.map ObjTypeInfoCall.setFlag)).getType = d.getType ∧
    (d.calls (ms.map ObjTypeInfoCall.setFlag)).getMaxFieldOffsetLimit =
      d.getMaxFieldOffsetLimit ∧
    (∀ ms' : List Nat, (∀ m, m ∈ ms ↔ m ∈ ms') →
      d.calls (ms'.map ObjTypeInfoCall.setFlag) = d.calls (ms.map ObjTypeInfoCall.setFlag)) ∧
    (∀ ms' : List Nat, ms.Perm ms' →
      d.calls (ms'.map ObjTypeInfoCall.setFlag) = d.calls (ms.map ObjTypeInfoCall.setFlag)) ∧
    (∀ m : Nat, (d.setFlag m).setFlag m = d.setFlag m) ∧
    (∀ m n : Nat, (d.setFlag m).setFlag n = (d.setFlag n).setFlag m) := by
  have hcongr : ∀ ms' : List Nat, (∀ m, m ∈ ms ↔ m ∈ ms') →
      d.calls (ms'.map ObjTypeInfoCall.setFlag) = d.calls (ms.map ObjTypeInfoCall.setFlag) := by
    intro ms' h
    rw [calls_setFlag_eq, calls_setFlag_eq, foldl_lor_congr ms ms' d.flags h]
  refine ⟨?_, ?_, ?_, ?_, hcongr, ?_, ?_, ?_⟩
  · rw [calls_setFlag_eq]
  · intro i
    rw [calls_setFlag_eq]
    exact foldl_lor_testBit ms d.flags i
  · rw [calls_setFlag_eq]
    rfl
  · rw [calls_setFlag_eq]
    rfl
  · intro ms' hp
    exact hcongr ms' (fun m => hp.mem_iff)
  · intro m
    simp [ObjTypeInfo.setFlag, Nat.lor_assoc]
  · intro m n
    simp only [ObjTypeInfo.setFlag, Nat.lor_assoc, Nat.lor_comm m n]

/-! ## Theorems: the kind sets as a partition -/

/-- C17: for a symbol whose kind is one of the eight enumerators exactly one
of `ValSym`, `ObjSym` and `IntrinsicSym` accepts it; what a subclass accepts
its parent accepts; sibling subclasses accept no symbol in common; and a symbol
whose kind is none of the eight is accepted by `SVFVar::classof` alone. -/
theorem top_level_variants_partition (s : SVFVar) :
    ((∃ k : SYMTYPE, s.getKind = k.toNat) →
      (ValSym.classof s = true ∧ ObjSym.classof s = false ∧ IntrinsicSym.classof s = false) ∨
      (ValSym.classof s = false ∧ ObjSym.classof s = true ∧ IntrinsicSym.classof s = false) ∨
      (ValSym.classof s = false ∧ ObjSym.classof s = false ∧ IntrinsicSym.classof s = true)) ∧
    (BlkPtrSym.classof s = true → ValSym.classof s = true) ∧
    (NullPtrSym.classof s = true → ValSym.classof s = true) ∧
    (BlackHoleSym.classof s = true → ObjSym.classof s = true) ∧
    (ConstantObjSym.classof s = true → ObjSym.classof s = true) ∧
    (RetSym.classof s = true → IntrinsicSym.classof s = true) ∧
    (VarargSym.classof s = true → IntrinsicSym.classof s = true) ∧
    ¬ (BlkPtrSym.classof s = true ∧ NullPtrSym.classof s = true) ∧
    ¬ (BlackHoleSym.classof s = true ∧ ConstantObjSym.classof s = true) ∧
    ¬ (RetSym.classof s = true ∧ VarargSym.classof s = true) ∧
    ((∀ k : SYMTYPE, s.getKind ≠ k.toNat) →
      SVFVar.classof s = true ∧
      ValSym.classof s = false ∧ ObjSym.classof s = false ∧ IntrinsicSym.classof s = false ∧
      BlkPtrSym.classof s = false ∧ NullPtrSym.classof s = false ∧
      BlackHoleSym.classof s = false ∧ ConstantObjSym.classof s = false ∧
      RetSym.classof s = false ∧ VarargSym.classof s = false) := by
  refine ⟨?_, ?_, ?_, ?_, ?_, ?_, ?_, ?_, ?_, ?_, ?_⟩
  · rintro ⟨k, hk⟩
    cases k <;>
      simp [ValSym.classof, ObjSym.classof, IntrinsicSym.classof, hk, SYMTYPE.toNat]
  · intro h
    simp only [BlkPtrSym.classof, beq_iff_eq] at h
    simp [ValSym.classof, h]
  · intro h
    simp only [NullPtrSym.classof, beq_iff_eq] at h
    simp [ValSym.classof, h]
  · intro h
    simp only [BlackHoleSym.classof, beq_iff_eq] at h
    simp [ObjSym.classof, h]
  · intro h
    simp only [ConstantObjSym.classof, beq_iff_eq] at h
    simp [ObjSym.classof, h]
  · intro h
    simp only [RetSym.classof, beq_iff_eq] at h
    simp [IntrinsicSym.classof, h]
  · intro h
    simp only [VarargSym.classof, beq_iff_eq] at h
    simp [IntrinsicSym.classof, h]
  · rintro ⟨h1, h2⟩
    simp only [BlkPtrSym.classof, NullPtrSym.classof, beq_iff_eq] at h1 h2
    rw [h1] at h2
    exact absurd h2 (by decide)
  · rintro ⟨h1, h2⟩
    simp only [BlackHoleSym.classof, ConstantObjSym.classof, beq_iff_eq] at h1 h2
    rw [h1] at h2
    exact absurd h2 (by decide)
  · rintro ⟨h1, h2⟩
    simp only [RetSym.classof, VarargSym.classof, beq_iff_eq] at h1 h2
    rw [h1] at h2
    exact absurd h2 (by decide)
  · intro h
    have h0 := h .BlackHole
    have h1 := h .ConstantObj
    have h2 := h .BlkPtr
    have h3 := h .NullPtr
    have h4 := h .ValSymbol
    have h5 := h .ObjSymbol
    have h6 := h .RetSymbol
    have h7 := h .VarargSymbol
    simp [SVFVar.classof, ValSym.classof, ObjSym.classof, IntrinsicSym.classof,
      BlkPtrSym.classof, NullPtrSym.classof, BlackHoleSym.classof, ConstantObjSym.classof,
      RetSym.classof, VarargSym.classof, h0, h1, h2, h3, h4, h5, h6, h7]

/-! ## Theorems: fresh descriptors, single flags and frames -/

/-- Each `MEMTYPE` enumerator is the single bit at its position. -/
theorem MEMTYPE_toNat_eq_two_pow (f : MEMTYPE) : f.toNat = 2 ^ f.bit := by
  cases f <;> rfl

/-- Different `MEMTYPE` enumerators sit at different positions. -/
theorem MEMTYPE_bit_injective (f g : MEMTYPE) (h : f.bit = g.bit) : f = g := by
  cases f <;> cases g <;> first | rfl | exact absurd h (by decide)

/-- Testing a single-bit mask tests that bit of the flags word. -/
theorem hasFlag_two_pow (d : ObjTypeInfo) (j : Nat) :
    d.hasFlag (2 ^ j) = d.flags.testBit j := by
  rw [Bool.eq_iff_iff, hasFlag_iff_testBit]
  constructor
  · intro h
    exact h j (by simp [Nat.testBit_two_pow])
  · intro h i hi
    have hij : j = i := by simpa [Nat.testBit_two_pow] using hi
    rw [← hij]
    exact h

/-- C18: a freshly constructed `ObjTypeInfo` carries no classification: both
constructors give the same state, with the type and the limit that were
passed, and none of the 11 `MEMTYPE` flags is set, so every attribute
predicate is false. -/
theorem fresh_ObjTypeInfo_has_no_flag (val t : Ptr) (max : u32_t) :
    ObjTypeInfo.ctor val t max = ObjTypeInfo.ctorMaxType max t ∧
    (ObjTypeInfo.ctor val t max).getType = t ∧
    (ObjTypeInfo.ctor val t max).getMaxFieldOffsetLimit = max ∧
    (ObjTypeInfo.ctorMaxType max t).getType = t ∧
    (ObjTypeInfo.ctorMaxType max t).getMaxFieldOffsetLimit = max ∧
    (∀ f : MEMTYPE, (ObjTypeInfo.ctor val t max).hasFlag f.toNat = false) ∧
    (∀ f : MEMTYPE, (ObjTypeInfo.ctorMaxType max t).hasFlag f.toNat = false) ∧
    (ObjTypeInfo.ctor val t max).isFunction = false ∧
    (ObjTypeInfo.ctor val t max).isGlobalObj = false ∧
    (ObjTypeInfo.ctor val t max).isStaticObj = false ∧
    (ObjTypeInfo.ctor val t max).isStack = false ∧
    (ObjTypeInfo.ctor val t max).isHeap = false ∧
    (ObjTypeInfo.ctor val t max).isStruct = false ∧
    (ObjTypeInfo.ctor val t max).isArray = false ∧
    (ObjTypeInfo.ctor val t max).isConstant = false ∧
    (ObjTypeInfo.ctor val t max).hasPtrObj = false := by
  have hf : ∀ f : MEMTYPE, (ObjTypeInfo.ctor val t max).hasFlag f.toNat = false := by
    intro f
    cases f <;> simp [ObjTypeInfo.ctor, ObjTypeInfo.hasFlag, MEMTYPE.toNat]
  refine ⟨rfl, rfl, rfl, rfl, rfl, hf, hf, hf _, hf _, hf _, hf _, hf _, ?_, ?_, hf _, hf _⟩
  · simp [ObjTypeInfo.isStruct, hf]
  · simp [ObjTypeInfo.isArray, hf]

/-- C19: `hasFlag` asks for every bit of the mask: `hasFlag(a | b)` holds
exactly when `hasFlag(a)` and `hasFlag(b)` both hold; the 11 `MEMTYPE` flags
are distinct single bits, so setting one of them never changes what `hasFlag`
answers for another. -/
theorem hasFlag_tests_all_bits (d : ObjTypeInfo) :
    (∀ a b : Nat, d.hasFlag (a ||| b) = true ↔ d.hasFlag a = true ∧ d.hasFlag b = true) ∧
    (∀ f : MEMTYPE, f.toNat = 2 ^ f.bit) ∧
    (∀ f g : MEMTYPE, f ≠ g → f.bit ≠ g.bit) ∧
    (∀ f g : MEMTYPE, f ≠ g →
      (d.setFlag f.toNat).hasFlag g.toNat = d.hasFlag g.toNat) := by
  refine ⟨?_, MEMTYPE_toNat_eq_two_pow, fun f g hfg hb => hfg (MEMTYPE_bit_injective f g hb), ?_⟩
  · intro a b
    simp only [hasFlag_iff_testBit, Nat.testBit_or, Bool.or_eq_true]
    constructor
    · intro h
      exact ⟨fun i hi => h i (Or.inl hi), fun i hi => h i (Or.inr hi)⟩
    · rintro ⟨ha, hb⟩ i (hi | hi)
      · exact ha i hi
      · exact hb i hi
  · intro f g hfg
    have hne : ¬ f.bit = g.bit := fun hb => hfg (MEMTYPE_bit_injective f g hb)
    rw [MEMTYPE_toNat_eq_two_pow f, MEMTYPE_toNat_eq_two_pow g, hasFlag_two_pow,
      hasFlag_two_pow]
    simp [ObjTypeInfo.setFlag, Nat.testBit_or, Nat.testBit_two_pow, hne]

/-- C20: the two mutators are independent: `setFlag(m)` leaves the type and the
field limit as they were, and `setMaxFieldOffsetLimit(n)` makes the limit `n`
and leaves the type and the answer of every `hasFlag` as they were. -/
theorem mutators_are_independent (d : ObjTypeInfo) (m : Nat) (n : u32_t) :
    (d.setFlag m).getType = d.getType ∧
    (d.setFlag m).getMaxFieldOffsetLimit = d.getMaxFieldOffsetLimit ∧
    (d.setMaxFieldOffsetLimit n).getMaxFieldOffsetLimit = n ∧
    (d.setMaxFieldOffsetLimit n).getType = d.getType ∧
    (d.setMaxFieldOffsetLimit n).flags = d.flags ∧
    (∀ f : Nat, (d.setMaxFieldOffsetLimit n).hasFlag f = d.hasFlag f) ∧
    (d.setMaxFieldOffsetLimit n).isFunction = d.isFunction ∧
    (d.setMaxFieldOffsetLimit n).isGlobalObj = d.isGlobalObj ∧
    (d.setMaxFieldOffsetLimit n).isStaticObj = d.isStaticObj ∧
    (d.setMaxFieldOffsetLimit n).isStack = d.isStack ∧
    (d.setMaxFieldOffsetLimit n).isHeap = d.isHeap ∧
    (d.setMaxFieldOffsetLimit n).isStruct = d.isStruct ∧
    (d.setMaxFieldOffsetLimit n).isArray = d.isArray ∧
    (d.setMaxFieldOffsetLimit n).isConstant = d.isConstant ∧
    (d.setMaxFieldOffsetLimit n).hasPtrObj = d.hasPtrObj :=
  ⟨rfl, rfl, rfl, rfl, rfl, fun _ => rfl, rfl, rfl, rfl, rfl, rfl, rfl, rfl, rfl, rfl⟩

/-! ## Theorems: the aggregate flattening engine -/

/-- Emitting two lists of fields one after the other. -/
theorem emitAll_append (st : FlattenState) (a b : List (Nat × Ptr)) :
    st.emitAll (a ++ b) = (st.emitAll a).emitAll b := by
  simp [FlattenState.emitAll, List.foldl_append]

/-- The running index advances by one per emitted field. -/
theorem emitAll_flattenedIndex (fields : List (Nat × Ptr)) (st : FlattenState) :
    (st.emitAll fields).flattenedIndex = st.flattenedIndex + fields.length := by
  induction fields generalizing st with
  | nil => rfl
  | cons p ps ih =>
    have h := ih (st.emit p.1 p.2)
    simp only [FlattenState.emitAll, List.foldl_cons, List.length_cons] at h ⊢
    rw [h]
    show st.flattenedIndex + 1 + ps.length = st.flattenedIndex + (ps.length + 1)
    rw [Nat.add_assoc, Nat.add_comm 1]

/-- The leaves of a member list, member by member. -/
theorem members_leaves_eq_flatMap (ms : AggMembers) (base : Nat) :
    ms.leaves base = ms.toList.flatMap (fun p => p.2.leaves (base + p.1)) := by
  match ms with
  | .nil => rfl
  | .cons offset member rest =>
    simp only [AggMembers.leaves, AggMembers.toList, List.flatMap_cons,
      members_leaves_eq_flatMap rest base]


/-- The leaves of an aggregate, sub-field by sub-field. -/
theorem leaves_eq_flatMap_subFields (t : AggType) (base : Nat) (h : 0 < t.depth) :
    t.leaves base = t.subFields.flatMap (fun p => p.2.leaves (base + p.1)) := by
  cases t with
  | leaf handle size => simp [AggType.depth] at h
  | array handle count elem =>
    simp only [AggType.leaves, AggType.subFields, List.flatMap_map]
  | struct handle members =>
    simp only [AggType.leaves, AggType.subFields, members_leaves_eq_flatMap]

/-- The length of a list built from pieces of one length. -/
theorem length_flatMap_const {α β : Type} (f : α → List β) (c : Nat) (l : List α)
    (h : ∀ a, (f a).length = c) : (l.flatMap f).length = l.length * c := by
  induction l with
  | nil => simp
  | cons a l ih =>
    rw [List.flatMap_cons, List.length_append, h a, ih, List.length_cons]
    ring

mutual
/-- The leaves of a type are as many as its true leaf count. -/
theorem length_leaves : ∀ (t : AggType) (base : Nat), (t.leaves base).length = t.leafCount
  | .leaf _ _, _ => rfl
  | .array _ count elem, base => by
    simp only [AggType.leaves, AggType.leafCount]
    rw [length_flatMap_const _ elem.leafCount _ (fun k => length_leaves elem _), List.length_range]
  | .struct _ members, base => by
    simp only [AggType.leaves, AggType.leafCount]
    exact length_members_leaves members base
/-- The leaves of a member list are as many as its true leaf count. -/
theorem length_members_leaves :
    ∀ (ms : AggMembers) (base : Nat), (ms.leaves base).length = ms.leafCount
  | .nil, _ => rfl
  | .cons offset member rest, base => by
    simp only [AggMembers.leaves, AggMembers.leafCount, List.length_append]
    rw [length_leaves member _, length_members_leaves rest base]
end

/-- A member of a struct is no deeper than the member list. -/
theorem depth_le_of_mem_toList (ms : AggMembers) (p : Nat × AggType) (h : p ∈ ms.toList) :
    p.2.depth ≤ ms.depth := by
  match ms with
  | .nil => simp [AggMembers.toList] at h
  | .cons offset member rest =>
    simp only [AggMembers.toList, List.mem_cons] at h
    simp only [AggMembers.depth]
    rcases h with rfl | h
    · exact Nat.le_max_left _ _
    · exact Nat.le_trans (depth_le_of_mem_toList rest p h) (Nat.le_max_right _ _)

/-- A sub-field of an aggregate is less deep than the aggregate. -/
theorem depth_lt_of_mem_subFields (t : AggType) (p : Nat × AggType) (h : p ∈ t.subFields) :
    p.2.depth < t.depth := by
  cases t with
  | leaf handle size => simp [AggType.subFields] at h
  | array handle count elem =>
    simp only [AggType.subFields, List.mem_map] at h
    obtain ⟨k, _, rfl⟩ := h
    simp [AggType.depth]
  | struct handle members =>
    simp only [AggType.subFields] at h
    simp only [AggType.depth]
    exact Nat.lt_succ_of_le (depth_le_of_mem_toList members p h)

/-- Walking a list of sub-fields emits their leaves, when the walk of each
sub-field does. -/
theorem foldl_flattenAux_eq_emitAll (limit : u32_t) (fuel base : Nat)
    (ih : ∀ (t : AggType) (base : Nat) (st : FlattenState), t.depth ≤ fuel →
      st.flattenedIndex + t.leafCount ≤ limit →
      flattenAux limit fuel base t st = st.emitAll (t.leaves base))
    (items : List (Nat × AggType)) (st : FlattenState)
    (hd : ∀ p ∈ items, p.2.depth ≤ fuel)
    (hc : st.flattenedIndex + (items.flatMap (fun p => p.2.leaves (base + p.1))).length ≤ limit) :
    items.foldl (fun acc p => flattenAux limit fuel (base + p.1) p.2 acc) st =
      st.emitAll (items.flatMap (fun p => p.2.leaves (base + p.1))) := by
  induction items generalizing st with
  | nil => rfl
  | cons p ps ihl =>
    rw [List.flatMap_cons, List.length_append, length_leaves] at hc
    have hp : flattenAux limit fuel (base + p.1) p.2 st = st.emitAll (p.2.leaves (base + p.1)) :=
      ih p.2 (base + p.1) st (hd p (List.mem_cons_self _ _))
        (Nat.le_trans (Nat.add_le_add_left (Nat.le_add_right _ _) _) hc)
    rw [List.foldl_cons, hp, List.flatMap_cons, emitAll_append]
    apply ihl
    · intro q hq
      exact hd q (List.mem_cons_of_mem _ hq)
    · rw [emitAll_flattenedIndex, length_leaves, Nat.add_assoc]
      exact hc

/-- The walk of a type that fits under the limit and is no deeper than the
recursion allows emits exactly the leaves of the type. -/
theorem flattenAux_eq_emitAll (limit : u32_t) (fuel : Nat) :
    ∀ (t : AggType) (base : Nat) (st : FlattenState), t.depth ≤ fuel →
      st.flattenedIndex + t.leafCount ≤ limit →
      flattenAux limit fuel base t st = st.emitAll (t.leaves base) := by
  induction fuel with
  | zero =>
    intro t base st hd _
    cases t with
    | leaf handle size => rfl
    | array handle count elem => simp [AggType.depth] at hd
    | struct handle members => simp [AggType.depth] at hd
  | succ fuel ih =>
    intro t base st hd hc
    cases t with
    | leaf handle size => rfl
    | array handle count elem =>
      have hpos : 0 < (AggType.array handle count elem).depth := by simp [AggType.depth]
      rw [flattenAux, if_neg (Nat.not_lt.mpr hc), leaves_eq_flatMap_subFields _ base hpos]
      apply foldl_flattenAux_eq_emitAll limit fuel base ih
      · intro p hp
        exact Nat.le_of_lt_succ (Nat.lt_of_lt_of_le (depth_lt_of_mem_subFields _ p hp) hd)
      · rw [← leaves_eq_flatMap_subFields _ base hpos, length_leaves]
        exact hc
    | struct handle members =>
      have hpos : 0 < (AggType.struct handle members).depth := by simp [AggType.depth]
      rw [flattenAux, if_neg (Nat.not_lt.mpr hc), leaves_eq_flatMap_subFields _ base hpos]
      apply foldl_flattenAux_eq_emitAll limit fuel base ih
      · intro p hp
        exact Nat.le_of_lt_succ (Nat.lt_of_lt_of_le (depth_lt_of_mem_subFields _ p hp) hd)
      · rw [← leaves_eq_flatMap_subFields _ base hpos, length_leaves]
        exact hc

/-- The offset vector after a list of fields is emitted. -/
theorem emitAll_foffset (fields : List (Nat × Ptr)) (st : FlattenState) :
    (st.emitAll fields).stinfo.foffset = st.stinfo.foffset ++ fields.map Prod.fst := by
  induction fields generalizing st with
  | nil => simp [FlattenState.emitAll]
  | cons p ps ih =>
    have h := ih (st.emit p.1 p.2)
    simp only [FlattenState.emitAll, List.foldl_cons] at h ⊢
    rw [h]
    simp [FlattenState.emit, StInfo.addFldWithType]

/-- The index vector after a list of fields is emitted. -/
theorem emitAll_fldIdxVec (fields : List (Nat × Ptr)) (st : FlattenState) :
    (st.emitAll fields).stinfo.fldIdxVec =
      st.stinfo.fldIdxVec ++ List.range' st.flattenedIndex fields.length := by
  induction fields generalizing st with
  | nil => simp [FlattenState.emitAll]
  | cons p ps ih =>
    have h := ih (st.emit p.1 p.2)
    simp only [FlattenState.emitAll, List.foldl_cons] at h ⊢
    rw [h]
    simp [FlattenState.emit, StInfo.addFldWithType, List.range'_succ]

/-- The field-info vector after a list of fields is emitted. -/
theorem emitAll_finfo (fields : List (Nat × Ptr)) (st : FlattenState) :
    (st.emitAll fields).stinfo.finfo.map (fun f => (f.byteOffset, f.leafType)) =
        st.stinfo.finfo.map (fun f => (f.byteOffset, f.leafType)) ++ fields ∧
    (st.emitAll fields).stinfo.finfo.map FieldInfo.flattenedIndex =
        st.stinfo.finfo.map FieldInfo.flattenedIndex ++
          List.range' st.flattenedIndex fields.length := by
  induction fields generalizing st with
  | nil => simp [FlattenState.emitAll]
  | cons p ps ih =>
    have h := ih (st.emit p.1 p.2)
    simp only [FlattenState.emitAll, List.foldl_cons] at h ⊢
    rw [h.1, h.2]
    simp [FlattenState.emit, StInfo.addFldWithType, List.range'_succ]

/-- Emitting fields leaves the index map alone below the running index. -/
theorem emitAll_find_idx_lt (fields : List (Nat × Ptr)) (st : FlattenState) (j : Nat)
    (hj : j < st.flattenedIndex) :
    (st.emitAll fields).stinfo.fldIdx2TypeMap.find j = st.stinfo.fldIdx2TypeMap.find j := by
  induction fields generalizing st with
  | nil => rfl
  | cons p ps ih =>
    have h := ih (st.emit p.1 p.2) (Nat.lt_succ_of_lt hj)
    simp only [FlattenState.emitAll, List.foldl_cons] at h ⊢
    rw [h]
    exact find_assign_ne _ _ _ _ (Nat.ne_of_lt hj)

/-- The index map after a list of fields is emitted: the `k`-th field is found
under the running index plus `k`. -/
theorem emitAll_find_idx (fields : List (Nat × Ptr)) (st : FlattenState) (k : Nat)
    (p : Nat × Ptr) (hk : fields[k]? = some p) :
    (st.emitAll fields).stinfo.fldIdx2TypeMap.find (st.flattenedIndex + k) = some p.2 := by
  induction fields generalizing st k with
  | nil => simp at hk
  | cons q qs ih =>
    cases k with
    | zero =>
      simp only [List.getElem?_cons_zero, Option.some.injEq] at hk
      subst hk
      have h := emitAll_find_idx_lt qs (st.emit q.1 q.2) st.flattenedIndex (Nat.lt_succ_self _)
      simp only [FlattenState.emitAll, List.foldl_cons] at h ⊢
      rw [Nat.add_zero, h]
      exact find_assign_self _ _ _
    | succ k =>
      simp only [List.getElem?_cons_succ] at hk
      have h := ih (st.emit q.1 q.2) k hk
      simp only [FlattenState.emitAll, List.foldl_cons] at h ⊢
      have hidx : st.flattenedIndex + (k + 1) = (st.emit q.1 q.2).flattenedIndex + k := by
        show st.flattenedIndex + (k + 1) = st.flattenedIndex + 1 + k
        rw [Nat.add_assoc, Nat.add_comm 1]
      rw [hidx]
      exact h

/-- The offset map after a list of fields is emitted: an offset finds the type
of the last emitted field at that offset, or what it found before. -/
theorem emitAll_find_offset (fields : List (Nat × Ptr)) (st : FlattenState) (off : Nat) :
    (st.emitAll fields).stinfo.offset2TypeMap.find off =
      match fields.reverse.find? (fun p => p.1 == off) with
      | some p => some p.2
      | none => st.stinfo.offset2TypeMap.find off := by
  induction fields generalizing st with
  | nil => rfl
  | cons q qs ih =>
    have h := ih (st.emit q.1 q.2)
    simp only [FlattenState.emitAll, List.foldl_cons] at h ⊢
    rw [h, List.reverse_cons, List.find?_append]
    cases qs.reverse.find? (fun p => p.1 == off) with
    | some p => rfl
    | none =>
      by_cases hq : q.1 = off
      · subst hq
        simp only [Option.none_or, List.find?_cons, beq_self_eq_true]
        exact find_assign_self _ _ _
      · have hb : (q.1 == off) = false := by simpa using hq
        simp only [Option.none_or, List.find?_cons, hb, List.find?_nil]
        exact find_assign_ne _ _ _ _ (fun h => hq h.symm)

/-- A type wrapped in structs of one member has the leaves of the type. -/
theorem leafCount_nestStruct (n : Nat) (t : AggType) :
    (nestStruct n t).leafCount = t.leafCount := by
  induction n with
  | zero => rfl
  | succ n ih => simp [nestStruct, AggType.leafCount, AggMembers.leafCount, ih]

/-- A pair wrapped in as many structs as the recursion may descend is met when
the recursion depth is used up, and becomes one synthetic field. -/
theorem flattenAux_nestStruct (limit : u32_t) (fuel : Nat) (st : FlattenState)
    (h : st.flattenedIndex + 2 ≤ limit) :
    flattenAux limit fuel 0 (nestStruct fuel scenarioPair) st = st.emit 0 3 := by
  induction fuel with
  | zero => rfl
  | succ fuel ih =>
    have hc : ¬ limit < st.flattenedIndex +
        (AggType.struct 5 (.cons 0 (nestStruct fuel scenarioPair) .nil)).leafCount := by
      have h2 : (AggType.struct 5 (.cons 0 (nestStruct fuel scenarioPair) .nil)).leafCount = 2 := by
        simp [AggType.leafCount, AggMembers.leafCount, leafCount_nestStruct, scenarioPair,
          scenarioInt]
      rw [h2]
      exact Nat.not_lt.mpr h
    rw [nestStruct, flattenAux, if_neg hc]
    simp only [AggType.subFields, AggMembers.toList, List.foldl_cons, List.foldl_nil]
    exact ih

/-- C14, as stated, fails: the engine also caps the recursion depth.  With limit
100 and depth cap 1, the type `struct { struct{int,int} }` has 2 leaves and is
flattened to 1 field; and whatever the depth cap is, a `struct{int,int}`
wrapped in that many structs has 2 leaves and is flattened to 1 field. -/
theorem flatten_collapses_below_depth_cap :
    (nestStruct 1 scenarioPair).leafCount = 2 ∧
    (flatten 100 1 (nestStruct 1 scenarioPair)).stinfo.getFieldIdxVec = [0] ∧
    (flatten 100 1 (nestStruct 1 scenarioPair)).stinfo.getFieldOffsetVec = [0] ∧
    (flatten 100 1 (nestStruct 1 scenarioPair)).stinfo.getFieldOffsetVec.length ≠
      (nestStruct 1 scenarioPair).leafCount ∧
    (∀ maxDepth : Nat,
      (nestStruct maxDepth scenarioPair).leafCount = 2 ∧
      (flatten 100 maxDepth (nestStruct maxDepth scenarioPair)).stinfo.getFieldOffsetVec.length
        = 1) := by
  refine ⟨by decide, by decide, by decide, by decide, ?_⟩
  intro maxDepth
  refine ⟨?_, ?_⟩
  · rw [leafCount_nestStruct]
    rfl
  · rw [flatten, flattenAux_nestStruct 100 maxDepth FlattenState.init (by decide)]
    rfl

/-- C14, amended: for every type whose true leaf count is at most the
configured maximum field limit and whose nesting depth is at most the
recursion-depth cap, flattening records exactly one field per leaf, in
traversal order, under the indices 0, 1, 2, ..., each at its true byte offset;
the field count is the leaf count, the last recorded offset is the last leaf's
offset, the index map gives each leaf's type under its index and the offset map
gives the type of the last leaf recorded at an offset. -/
theorem flatten_records_one_field_per_leaf (limit : u32_t) (maxDepth : Nat) (t : AggType)
    (hcount : t.leafCount ≤ limit) (hdepth : t.depth ≤ maxDepth) :
    flatten limit maxDepth t = FlattenState.init.emitAll (t.leaves 0) ∧
    (flatten limit maxDepth t).stinfo.getFieldIdxVec = List.range t.leafCount ∧
    (flatten limit maxDepth t).stinfo.getFieldOffsetVec = (t.leaves 0).map Prod.fst ∧
    (flatten limit maxDepth t).stinfo.getFlattenFieldInfoVec.map
        (fun f => (f.byteOffset, f.leafType)) = t.leaves 0 ∧
    (flatten limit maxDepth t).stinfo.getFlattenFieldInfoVec.map FieldInfo.flattenedIndex =
      List.range t.leafCount ∧
    (flatten limit maxDepth t).stinfo.getFieldIdxVec.length = t.leafCount ∧
    (flatten limit maxDepth t).stinfo.getFieldOffsetVec.length = t.leafCount ∧
    (flatten limit maxDepth t).stinfo.getFlattenFieldInfoVec.length = t.leafCount ∧
    (flatten limit maxDepth t).flattenedIndex = t.leafCount ∧
    (flatten limit maxDepth t).stinfo.getFieldOffsetVec.getLast? =
      (t.leaves 0).getLast?.map Prod.fst ∧
    (∀ (k : Nat) (p : Nat × Ptr), (t.leaves 0)[k]? = some p →
      (flatten limit maxDepth t).stinfo.fldIdx2TypeMap.find k = some p.2) ∧
    (∀ off : Nat, (flatten limit maxDepth t).stinfo.offset2TypeMap.find off =
      ((t.leaves 0).reverse.find? (fun p => p.1 == off)).map Prod.snd) := by
  have hflat : flatten limit maxDepth t = FlattenState.init.emitAll (t.leaves 0) :=
    flattenAux_eq_emitAll limit maxDepth t 0 FlattenState.init hdepth
      (by
        show 0 + t.leafCount ≤ limit
        rw [Nat.zero_add]
        exact hcount)
  have hidx : (flatten limit maxDepth t).stinfo.getFieldIdxVec = List.range t.leafCount := by
    rw [hflat, StInfo.getFieldIdxVec, emitAll_fldIdxVec, length_leaves, List.range_eq_range']
    rfl
  have hoff : (flatten limit maxDepth t).stinfo.getFieldOffsetVec =
      (t.leaves 0).map Prod.fst := by
    rw [hflat, StInfo.getFieldOffsetVec, emitAll_foffset]
    rfl
  have hinfo := emitAll_finfo (t.leaves 0) FlattenState.init
  have hinfo1 : (flatten limit maxDepth t).stinfo.getFlattenFieldInfoVec.map
      (fun f => (f.byteOffset, f.leafType)) = t.leaves 0 := by
    rw [hflat, StInfo.getFlattenFieldInfoVec, hinfo.1]
    rfl
  have hinfo2 : (flatten limit maxDepth t).stinfo.getFlattenFieldInfoVec.map
      FieldInfo.flattenedIndex = List.range t.leafCount := by
    rw [hflat, StInfo.getFlattenFieldInfoVec, hinfo.2, length_leaves, List.range_eq_range']
    rfl
  refine ⟨hflat, hidx, hoff, hinfo1, hinfo2, ?_, ?_, ?_, ?_, ?_, ?_, ?_⟩
  · rw [hidx, List.length_range]
  · rw [hoff, List.length_map, length_leaves]
  · rw [← List.length_map _ FieldInfo.flattenedIndex, hinfo2, List.length_range]
  · rw [hflat, emitAll_flattenedIndex, length_leaves]
    exact Nat.zero_add _
  · rw [hoff, List.getLast?_map]
  · intro k p hk
    have h := emitAll_find_idx (t.leaves 0) FlattenState.init k p hk
    rw [hflat]
    rw [show FlattenState.init.flattenedIndex + k = k from Nat.zero_add k] at h
    exact h
  · intro off
    rw [hflat, emitAll_find_offset]
    cases (t.leaves 0).reverse.find? (fun p => p.1 == off) <;> rfl

/-- C14, at the scenario: `struct {int, int[3], struct{int,int}}` with 4-byte
`int`s, limit 100 and depth cap 8 has 6 leaves and flattens to 6 fields with
the indices 0 to 5 and the offsets 0, 4, 8, 12, 16, 20, and both maps hold one
entry for each of them, of type `int`. -/
theorem flatten_scenario :
    scenarioStruct.leafCount = 6 ∧
    (flatten 100 8 scenarioStruct).stinfo.getFieldIdxVec = [0, 1, 2, 3, 4, 5] ∧
    (flatten 100 8 scenarioStruct).stinfo.getFieldOffsetVec = [0, 4, 8, 12, 16, 20] ∧
    (flatten 100 8 scenarioStruct).stinfo.getFlattenFieldInfoVec.length = 6 ∧
    (flatten 100 8 scenarioStruct).stinfo.fldIdx2TypeMap.entries =
      [(0, 1), (1, 1), (2, 1), (3, 1), (4, 1), (5, 1)] ∧
    (flatten 100 8 scenarioStruct).stinfo.offset2TypeMap.entries =
      [(0, 1), (4, 1), (8, 1), (12, 1), (16, 1), (20, 1)] :=
  have h := flatten_records_one_field_per_leaf 100 8 scenarioStruct (by decide) (by decide)
  ⟨by decide, h.2.1.trans (by decide), h.2.2.1.trans (by decide),
    h.2.2.2.2.2.2.2.1.trans (by decide), by decide, by decide⟩

end SVF
